import Mathlib

/-!
Shallow embedding of the `ls-product-rec-poc` recommender pipeline
(src/recommender): unified scoring (`scoring.py`), candidate aggregation,
dedup, ranking and the points endpoint (`recommender_points.py`, `app.py`),
the Variant A reason-annotation generation-validation step
(`app.py`, `recommend_with_prefs_llm`), and the Variant B target-selection
suggestion builder (`recommender_llm.py`, `build_suggestions`).

Python floats are modelled by exact rationals (ℚ); Python `round(x, 4)` by
`round4` (round half to even on the 4th decimal); Python dicts coming back
from collaborators by structures with `Option` fields; collaborator calls
(Qdrant, embeddings, the LLM) by explicit parameters holding their results.
-/

namespace RecPoc

/-- A Qdrant point payload as the code reads it: `sku`, `title` may be
absent, `payload.get("tags", []) or []` collapses an absent/None tag list
to `[]`. -/
structure Payload where
  sku : Option String := none
  title : Option String := none
  tags : List String := []
deriving DecidableEq

/-- A raw candidate entry `r` from a collaborator: `r.get("payload")` and
`r.get("id")` may each be absent. -/
structure QPoint where
  payload : Option Payload := none
  id : Option String := none
deriving DecidableEq

/-- Python `a or b` on optional strings: `None` and `""` are falsy. -/
def pyOrStr (a b : Option String) : Option String :=
  match a with
  | some s => if s = "" then b else some s
  | none => b

/-- Python `str(x)` on an optional string: `str(None) = "None"`. -/
def pyStr (o : Option String) : String := o.getD "None"

/-- `sku = str(payload.get("sku") or r.get("id"))` with
`payload = r.get("payload", {}) or {}`. -/
def candSku (r : QPoint) : String :=
  pyStr (pyOrStr (r.payload.getD {}).sku r.id)

/-- Python `str.strip()` (whitespace trim at both ends), modelled on the
character list so it evaluates in the kernel. -/
def isWs (c : Char) : Bool := c = ' ' || c = '\t' || c = '\n' || c = '\r'

def pyStrip (s : String) : String :=
  ⟨((s.data.dropWhile isWs).reverse.dropWhile isWs).reverse⟩

/-! ## scoring.py -/

def CLICK_W : ℚ := 0.6
def CART_W : ℚ := 0.8
def BOUGHT_W : ℚ := 0.0
def TAG_W : ℚ := 0.4

/-- `jaccard` from `scoring.py`: 0 when either set is empty, else
`|a ∩ b| / |a ∪ b|` (with the source's redundant zero-union guard). -/
def jaccard (a b : Finset String) : ℚ :=
  if a = ∅ ∨ b = ∅ then 0
  else
    let inter := (a ∩ b).card
    let uni := (a ∪ b).card
    if uni = 0 then 0 else (inter : ℚ) / (uni : ℚ)

/-- `score_candidate_unified` from `scoring.py`: returns
(score, reasons, overlap_ratio, overlap_count).  The source accumulates the
score by successive `+=`; here the same sum is written in one expression. -/
def score_candidate_unified (pid : String) (payloadTags : List String)
    (clicked carted bought : List String) (signal_tags : Finset String) :
    ℚ × List String × ℚ × ℕ :=
  let cand_tags := payloadTags.toFinset
  let reasons :=
    (if pid ∈ clicked then ["clicked"] else []) ++
    (if pid ∈ carted then ["added_to_cart"] else []) ++
    (if pid ∈ bought then ["bought"] else [])
  let overlap_frac := jaccard cand_tags signal_tags
  let overlap_count := (cand_tags ∩ signal_tags).card
  let reasons := reasons ++ (if 0 < overlap_count then ["tag_overlap"] else [])
  let score : ℚ :=
    (if pid ∈ clicked then CLICK_W else 0) +
    (if pid ∈ carted then CART_W else 0) +
    (if pid ∈ bought then BOUGHT_W else 0) +
    TAG_W * overlap_frac
  (max 0 (min 1 score), reasons, overlap_frac, overlap_count)

/-! ## Python round(x, 4): round half to even on the 4th decimal -/

/-- Round a rational to the nearest integer, ties to even. -/
def rhe (q : ℚ) : ℤ :=
  if q - ⌊q⌋ < 1/2 then ⌊q⌋
  else if (1 : ℚ)/2 < q - ⌊q⌋ then ⌊q⌋ + 1
  else if ⌊q⌋ % 2 = 0 then ⌊q⌋ else ⌊q⌋ + 1

/-- `round(x, 4)`. -/
def round4 (q : ℚ) : ℚ := (rhe (q * 10000) : ℚ) / 10000

/-! ## Deduplicated scoring loop and ranking (recommender_points.py / app.py) -/

/-- One entry of the internal `scored` list; `app.py`'s `prefs_llm` loop
stores all of these keys, the other two loops store subsets serialized by
projections below (the dropped keys never feed sort, filter or cap). -/
structure ScoredItem where
  id : String
  score : ℚ
  reasons : List String
  overlap_tags_count : ℕ
  overlap_tags_frac : ℚ
  title : String
  tags : List String
deriving DecidableEq

def mkScored (clicked carted bought : List String) (signal_tags : Finset String)
    (sku : String) (p : Payload) : ScoredItem :=
  let r := score_candidate_unified sku p.tags clicked carted bought signal_tags
  { id := sku, score := round4 r.1, reasons := r.2.1,
    overlap_tags_count := r.2.2.2, overlap_tags_frac := round4 r.2.2.1,
    title := p.title.getD "", tags := p.tags }

/-- The dedup/score loop shared by all three recommend handlers:
skip bought (when `exclude_bought`), skip already-seen skus, else score. -/
def scoreLoop (clicked carted bought : List String) (signal_tags : Finset String)
    (exclude_bought : Bool) (exclude_skus : Finset String) :
    List QPoint → Finset String → List ScoredItem
  | [], _ => []
  | r :: rest, seen =>
    let p := r.payload.getD {}
    let sku := candSku r
    if exclude_bought ∧ sku ∈ exclude_skus then
      scoreLoop clicked carted bought signal_tags exclude_bought exclude_skus rest seen
    else if sku ∈ seen then
      scoreLoop clicked carted bought signal_tags exclude_bought exclude_skus rest seen
    else
      mkScored clicked carted bought signal_tags sku p ::
        scoreLoop clicked carted bought signal_tags exclude_bought exclude_skus rest
          (insert sku seen)

/-- Stable insertion step: place `a` before the first element it is
`le`-related to. -/
def insertD {α : Type} (le : α → α → Bool) (a : α) : List α → List α
  | [] => [a]
  | b :: l => if le a b then a :: b :: l else b :: insertD le a l

/-- Stable sort (models Python's stable `list.sort`). -/
def sortD {α : Type} (le : α → α → Bool) : List α → List α
  | [] => []
  | a :: l => insertD le a (sortD le l)

def boolLt (a b : Bool) : Bool := !a && b

/-- `a ≤ b` for the lexicographic order on `(bool, bool, float)` sort keys
(Python tuple comparison, `False < True`). -/
def keyLe (a b : Bool × Bool × ℚ) : Bool :=
  if a.1 = b.1 then
    if a.2.1 = b.2.1 then decide (a.2.2 ≤ b.2.2)
    else boolLt a.2.1 b.2.1
  else boolLt a.1 b.1

/-- The sort key `(x["id"] in carted_set, x["id"] in clicked_set, x["score"])`. -/
def rankKey (carted clicked : List String) (x : ScoredItem) : Bool × Bool × ℚ :=
  (decide (x.id ∈ carted), decide (x.id ∈ clicked), x.score)

/-- `scored.sort(key=..., reverse=True)`: stable sort, descending on the key. -/
def rankSort (carted clicked : List String) (scored : List ScoredItem) : List ScoredItem :=
  sortD (fun x y => keyLe (rankKey carted clicked y) (rankKey carted clicked x)) scored

/-- Sort, threshold filter (inclusive `score >= SCORE_THRESHOLD`), cap at
`min(top_k, MAX_RESULTS)` — the ranking step of all three handlers. -/
def rankingPolicy (carted clicked : List String) (thr : ℚ) (top_k maxResults : ℕ)
    (scored : List ScoredItem) : List ScoredItem :=
  ((rankSort carted clicked scored).filter (fun x => decide (thr ≤ x.score))).take
    (min top_k maxResults)

def MAX_RESULTS : ℕ := 10
def SCORE_THRESHOLD : ℚ := 0.01

/-! ## Request plus collaborator results feeding one recommend call -/

/-- The request fields used by the pipeline together with the data the
external collaborators returned for this request:
`sigPayloads` — catalog payloads resolved for the signal skus
(`build_signal_tags`); `vecResults` — `qdrant_recommend_by_items` output;
`cartedPayloads`, `clickedPayloads` — `qdrant_payload_for_skus(...)` values
in scan order; `fbResults` — the cold-start `qdrant_search` output. -/
structure PipeIn where
  clicked : List String := []
  carted : List String := []
  bought : List String := []
  exclude_bought : Bool := true
  top_k : ℕ := 10
  sigPayloads : List Payload := []
  vecResults : List QPoint := []
  cartedPayloads : List Payload := []
  clickedPayloads : List Payload := []
  fbResults : List QPoint := []
deriving DecidableEq

/-- `build_signal_tags`: union of the tag strings of the resolved payloads. -/
def build_signal_tags (ps : List Payload) : Finset String :=
  ps.foldl (fun tags p => tags ∪ p.tags.toFinset) ∅

/-- Candidate aggregation: vector-store results only when some signal is
present, carted then clicked payload injections in front, cold-start
fallback search when everything is empty. -/
def aggregated (i : PipeIn) : List QPoint :=
  let vec := if i.clicked = [] ∧ i.carted = [] ∧ i.bought = [] then [] else i.vecResults
  let cands := i.cartedPayloads.map (fun p => { payload := some p : QPoint })
      ++ i.clickedPayloads.map (fun p => { payload := some p : QPoint }) ++ vec
  if cands = [] then i.fbResults else cands

/-- The deduplicated, scored candidate sequence of one request. -/
def pipeScored (i : PipeIn) : List ScoredItem :=
  let signal_tags := build_signal_tags i.sigPayloads
  let exclude_skus := if i.exclude_bought then i.bought.toFinset else ∅
  scoreLoop i.clicked i.carted i.bought signal_tags i.exclude_bought exclude_skus
    (aggregated i) ∅

/-- `top`: the ranked, thresholded, capped list of one request. -/
def pipeTop (i : PipeIn) (maxResults : ℕ) (thr : ℚ) : List ScoredItem :=
  rankingPolicy i.carted i.clicked thr i.top_k maxResults (pipeScored i)

/-! ## Response items (JSON dicts: absent keys are `none`) -/

/-- One element of the `recommendations` array of a response.  Different
handlers emit different key sets; absent keys are `none`. -/
structure RespItem where
  id : String
  score : ℚ
  reasons : List String
  overlap_tags_count : Option ℕ := none
  overlap_tags_frac : Option ℚ := none
  title : Option String := none
  tags : Option (List String) := none
deriving DecidableEq

/-- Serialization of one item by `recommender_points.py` (`recommend_points`):
id, score, reasons, overlap fields and title. -/
def toPointsItem (s : ScoredItem) : RespItem :=
  { id := s.id, score := s.score, reasons := s.reasons,
    overlap_tags_count := some s.overlap_tags_count,
    overlap_tags_frac := some s.overlap_tags_frac,
    title := some s.title }

/-- The `/recommend/prefs_points` handler of `recommender_points.py`:
the ranked/thresholded/capped list, serialized. -/
def recommend_points (i : PipeIn) (maxResults : ℕ) (thr : ℚ) : List RespItem :=
  (pipeTop i maxResults thr).map toPointsItem

/-- The three-key item `{"id": ..., "score": ..., "reasons": ...}` used by
the Variant A accepted list and by its fallback response. -/
def projFinal (s : ScoredItem) : RespItem :=
  { id := s.id, score := s.score, reasons := s.reasons }

/-! ## Variant A (app.py, recommend_with_prefs_llm): validation of the
LLM's reason-annotation response -/

/-- One dict of the LLM's `recommendations` array.  `id` is the raw value
of `it.get("id")` (later passed through `str`, so `none` renders "None");
`score = none` means `float(it.get("score"))` would raise (missing key or
non-numeric value); `reasons` is `it.get("reasons", [])`. -/
structure AItem where
  id : Option String := none
  score : Option ℚ := none
  reasons : List String := []
deriving DecidableEq

/-- The accepted three-key dict built from one LLM item. -/
def acceptedItem (it : AItem) (s : ℚ) : RespItem :=
  { id := pyStr it.id, score := s, reasons := it.reasons }

/-- `allowed = {r["id"]: r["score"] for r in top}` — later bindings win. -/
def allowedLookup (top : List ScoredItem) (i : String) : Option ℚ :=
  (top.reverse.find? (fun r => decide (r.id = i))).map (fun r => r.score)

/-- The accept loop of Variant A.  A `none` entry is a non-dict list
element (`it.get` raises, the whole call falls back); an accepted entry
must have its id among `top`'s ids (later-bindings-win dict) and a score
within `1e-6` of the original; the loop stops once `len(top)` items were
accepted (check performed after every iteration).  Returns `none` when the
Python loop would raise. -/
def acceptLoop (top : List ScoredItem) :
    List (Option AItem) → List RespItem → Option (List RespItem)
  | [], final => some final
  | none :: _, _ => none
  | some it :: rest, final =>
    let i := pyStr it.id
    match allowedLookup top i with
    | none =>
      if top.length ≤ final.length then some final
      else acceptLoop top rest final
    | some sc =>
      match it.score with
      | none => none
      | some s =>
        if |s - sc| < 1/1000000 then
          let final' := final ++ [{ id := i, score := s, reasons := it.reasons }]
          if top.length ≤ final'.length then some final'
          else acceptLoop top rest final'
        else
          if top.length ≤ final.length then some final
          else acceptLoop top rest final

/-- The fill loop: append the original items whose id is not in the
(fixed, precomputed) accepted id set, stopping once the length reaches
`len(top)` (check performed after each append). -/
def fillLoop (n : ℕ) (kset : Finset String) :
    List ScoredItem → List RespItem → List RespItem
  | [], final => final
  | r :: rest, final =>
    if r.id ∈ kset then fillLoop n kset rest final
    else
      let final' := final ++ [projFinal r]
      if n ≤ final'.length then final'
      else fillLoop n kset rest final'

/-- The whole generation-validation step of Variant A on a parsed
`recommendations` array; `none` when processing raises (→ fallback). -/
def validateVariantA (top : List ScoredItem) (entries : List (Option AItem)) :
    Option (List RespItem) :=
  match acceptLoop top entries [] with
  | none => none
  | some fin => some (fillLoop top.length (fin.map (fun f => f.id)).toFinset top fin)

/-- Outcome of the generative call for Variant A.  `failure` covers every
raising path: transport error, non-200 status, unparsable completion body,
`json.loads` failure, non-object top level, non-list `recommendations`.
`items entries` is a parsed object's `recommendations` array (`[]` when the
key is absent). -/
inductive AOutcome where
  | failure : AOutcome
  | items : List (Option AItem) → AOutcome
deriving DecidableEq

/-- A scored-recommendations response body. -/
structure ARsp where
  recommendations : List RespItem
  note : Option String := none
deriving DecidableEq

/-- The `/recommend/prefs_llm` handler (`app.py`): rank deterministically,
then validate the generative response; any raising path returns the
pre-generation list tagged `"llm-fallback"`. -/
def recommend_with_prefs_llm (i : PipeIn) (maxResults : ℕ) (thr : ℚ)
    (outcome : AOutcome) : ARsp :=
  let top := pipeTop i maxResults thr
  match outcome with
  | .failure => { recommendations := top.map projFinal, note := some "llm-fallback" }
  | .items entries =>
    match validateVariantA top entries with
    | none => { recommendations := top.map projFinal, note := some "llm-fallback" }
    | some fin => { recommendations := fin }

/-! ## Variant B (recommender_llm.py, build_suggestions) -/

def CTAS : List String :=
  ["take a look at", "see more about", "check out", "have a look at",
   "discover", "view details for"]

def action_verb (a : String) : String :=
  if a = "clicked" then "viewed"
  else if a = "added_to_cart" then "added to cart" else "bought"

/-- A target-pool element `{"sku": ..., "title": ...}`. -/
structure Tgt where
  sku : String
  title : String
deriving DecidableEq

/-- The target pool: deduplicated candidates, skipping empty skus and skus
in the exclusion set; title falls back to the sku. -/
def targetPool (exclude_targets : Finset String) :
    List QPoint → Finset String → List Tgt
  | [], _ => []
  | r :: rest, seen =>
    let p := r.payload.getD {}
    let sku := candSku r
    if sku = "" ∨ sku ∈ exclude_targets ∨ sku ∈ seen then
      targetPool exclude_targets rest seen
    else
      let title := match p.title with
        | some t => if t = "" then sku else t
        | none => sku
      ⟨sku, title⟩ :: targetPool exclude_targets rest (insert sku seen)

/-- First-binding-wins lookup in an association list (a dict whose keys
were inserted at most once, e.g. `qdrant_payload_for_skus`'s result). -/
def lookupFirst {β : Type} (l : List (String × β)) (k : String) : Option β :=
  (l.find? (fun p => decide (p.1 = k))).map (fun p => p.2)

/-- Last-binding-wins lookup (a dict built by repeated assignment). -/
def lookupLast {β : Type} (l : List (String × β)) (k : String) : Option β :=
  (l.reverse.find? (fun p => decide (p.1 = k))).map (fun p => p.2)

/-- `title_for`: resolved source payload title, or the sku itself. -/
def title_for (sp : List (String × Payload)) (sku : String) : String :=
  let p := (lookupFirst sp sku).getD {}
  match p.title with
  | some t => if t = "" then sku else t
  | none => sku

/-- The source list: `(action, sku, title)` triples, carted first, then
clicked, then bought. -/
def sourcesOf (clicked carted bought : List String)
    (sp : List (String × Payload)) : List (String × String × String) :=
  carted.map (fun s => ("added_to_cart", s, title_for sp s)) ++
  clicked.map (fun s => ("clicked", s, title_for sp s)) ++
  bought.map (fun s => ("bought", s, title_for sp s))

/-- The round-robin option builder for one source: starting at cursor
`ti`, try at most `rem` pool slots (initially `len(pool)`), skip the source
itself, stop at `ops` options; returns the options and the new cursor. -/
def buildOptions (pool : List Tgt) (ops : ℕ) (srcSku : String) :
    ℕ → ℕ → List Tgt → List Tgt × ℕ
  | ti, 0, acc => (acc, ti)
  | ti, rem+1, acc =>
    if acc.length < ops then
      let cand := pool.getD ti ⟨"", ""⟩
      let ti' := (ti + 1) % pool.length
      if cand.sku = srcSku then buildOptions pool ops srcSku ti' rem acc
      else buildOptions pool ops srcSku ti' rem (acc ++ [cand])
    else (acc, ti)

/-- `per_source_options` as an association list in insertion order (the
Python dict overwrites duplicate source skus: use `lookupLast`).  Sources
whose option list came out empty get no entry. -/
def perSourceOptions (pool : List Tgt) (ops : ℕ) :
    List (String × String × String) → ℕ → List (String × List Tgt)
  | [], _ => []
  | (_, src, _) :: rest, ti =>
    let r := buildOptions pool ops src ti pool.length []
    (if r.1 = [] then [] else [(src, r.1)]) ++ perSourceOptions pool ops rest r.2

/-- `source_meta[src] = {"action": ..., "title": ...}` (dict over the
filtered sources, later bindings win). -/
def metaLookup (sources : List (String × String × String)) (src : String) :
    Option (String × String) :=
  (sources.reverse.find? (fun s => decide (s.2.1 = src))).map (fun s => (s.1, s.2.2))

/-- `allowed_targets_per_source.get(src, set())`. -/
def allowedTargets (pso : List (String × List Tgt)) (src : String) : Finset String :=
  (((lookupLast pso src).getD []).map (fun t => t.sku)).toFinset

/-- `target_title_map.get(tgt, tgt)`. -/
def targetTitleMap (pool : List Tgt) (tgt : String) : String :=
  ((pool.reverse.find? (fun t => decide (t.sku = tgt))).map (fun t => t.title)).getD tgt

/-- The server-side sentence template
`f'You {verb} “{src_title}” — {cta} “{tgt_title}”.'`. -/
def mkText (verb srcTitle cta tgtTitle : String) : String :=
  "You " ++ verb ++ " “" ++ srcTitle ++ "” — " ++ cta ++
    " “" ++ tgtTitle ++ "”."

/-- One dict of the LLM's JSON array, Variant B.  The string fields hold
`str(obj.get(..., ""))` before `.strip()`; `fragment` is the collaborator's
prose. -/
structure BItem where
  source_sku : String := ""
  target_sku : String := ""
  fragment : String := ""
deriving DecidableEq

structure Suggestion where
  text : String
  source_sku : String
  target_sku : String
deriving DecidableEq

/-- The validated-collaborator loop of Variant B: enumerate the parsed
array (`none` = non-dict element, skipped), stop when
`min(top_k, MAX_RESULTS)` suggestions exist, validate source and target,
forbid reused targets, and synthesize the sentence with
`CTAS[idx % len(CTAS)]` where `idx` is the index in the collaborator's
array. -/
def bLoop (lim : ℕ) (sources : List (String × String × String))
    (pso : List (String × List Tgt)) (pool : List Tgt) :
    List (Option BItem) → ℕ → Finset String → List Suggestion → List Suggestion
  | [], _, _, acc => acc
  | e :: rest, idx, used, acc =>
    if lim ≤ acc.length then acc
    else
      match e with
      | none => bLoop lim sources pso pool rest (idx+1) used acc
      | some obj =>
        let src := pyStrip obj.source_sku
        let tgt := pyStrip obj.target_sku
        if src = "" ∨ tgt = "" then bLoop lim sources pso pool rest (idx+1) used acc
        else
          match metaLookup sources src with
          | none => bLoop lim sources pso pool rest (idx+1) used acc
          | some meta =>
            if tgt ∉ allowedTargets pso src then
              bLoop lim sources pso pool rest (idx+1) used acc
            else if tgt ∈ used then
              bLoop lim sources pso pool rest (idx+1) used acc
            else
              let text := mkText (action_verb meta.1) meta.2
                (CTAS.getD (idx % CTAS.length) "") (targetTitleMap pool tgt)
              bLoop lim sources pso pool rest (idx+1) (insert tgt used)
                (acc ++ [⟨text, src, tgt⟩])

/-- Inner loop of the deterministic fallback: walk one source's options,
pick every unused non-self option, CTA indexed by the emission counter
`idx`; stop at `lim`. -/
def bFbInner (lim : ℕ) (src verbText srcTitle : String) :
    List Tgt → Finset String → ℕ → List Suggestion →
    List Suggestion × Finset String × ℕ
  | [], used, idx, acc => (acc, used, idx)
  | opt :: rest, used, idx, acc =>
    if opt.sku ≠ src ∧ opt.sku ∉ used then
      let text := mkText verbText srcTitle (CTAS.getD (idx % CTAS.length) "") opt.title
      let acc' := acc ++ [⟨text, src, opt.sku⟩]
      if lim ≤ acc'.length then (acc', insert opt.sku used, idx+1)
      else bFbInner lim src verbText srcTitle rest (insert opt.sku used) (idx+1) acc'
    else bFbInner lim src verbText srcTitle rest used idx acc

/-- Outer loop of the deterministic fallback over the sources in priority
order. -/
def bFbOuter (lim : ℕ) (pso : List (String × List Tgt)) :
    List (String × String × String) → Finset String → ℕ → List Suggestion →
    List Suggestion
  | [], _, _, acc => acc
  | (action, src, srcTitle) :: rest, used, idx, acc =>
    let r := bFbInner lim src (action_verb action) srcTitle
      ((lookupLast pso src).getD []) used idx acc
    if lim ≤ r.1.length then r.1
    else bFbOuter lim pso rest r.2.1 r.2.2 r.1

/-- Outcome of the generative call for Variant B: `failure` covers the
raising paths (transport error, non-200, completion-parse error,
`json.loads` failure, non-array shape — the code raises on those and the
except-branch runs the deterministic fallback). -/
inductive BOutcome where
  | failure : BOutcome
  | items : List (Option BItem) → BOutcome
deriving DecidableEq

structure BRsp where
  customer_id : String
  suggestions : List Suggestion
deriving DecidableEq

/-- Variant B candidate list: vector-store results when some signal
exists, else the generic fallback search (no payload injection here). -/
def bCands (i : PipeIn) : List QPoint :=
  let c := if i.clicked = [] ∧ i.carted = [] ∧ i.bought = [] then []
           else i.vecResults
  if c = [] then i.fbResults else c

/-- `exclude_targets = set(clicked) | set(carted) (| set(bought) if
exclude_bought)`. -/
def bExclTargets (i : PipeIn) : Finset String :=
  i.clicked.toFinset ∪ i.carted.toFinset ∪
    (if i.exclude_bought then i.bought.toFinset else ∅)

def bPool (i : PipeIn) : List Tgt := targetPool (bExclTargets i) (bCands i) ∅

def bSources (i : PipeIn) (sp : List (String × Payload)) :
    List (String × String × String) :=
  sourcesOf i.clicked i.carted i.bought sp

/-- `OPTIONS_PER_SOURCE = min(8, len(target_pool))`. -/
def bOps (i : PipeIn) : ℕ := min 8 (bPool i).length

def bPso (i : PipeIn) (sp : List (String × Payload)) : List (String × List Tgt) :=
  perSourceOptions (bPool i) (bOps i) (bSources i sp) 0

/-- `sources = [s for s in sources if s[1] in per_source_options]`. -/
def bSourcesKept (i : PipeIn) (sp : List (String × Payload)) :
    List (String × String × String) :=
  (bSources i sp).filter (fun s => (lookupLast (bPso i sp) s.2.1).isSome)

def bLim (i : PipeIn) (maxResults : ℕ) : ℕ := min i.top_k maxResults

/-- The suggestion endpoint (`build_suggestions`): early-empty returns,
then either the validated-collaborator path or the deterministic
fallback. -/
def build_suggestions (cust : String) (i : PipeIn)
    (sp : List (String × Payload)) (maxResults : ℕ) (outcome : BOutcome) : BRsp :=
  if bPool i = [] then ⟨cust, []⟩
  else if bSources i sp = [] then ⟨cust, []⟩
  else if bSourcesKept i sp = [] then ⟨cust, []⟩
  else
    match outcome with
    | .failure =>
      ⟨cust, bFbOuter (bLim i maxResults) (bPso i sp) (bSourcesKept i sp) ∅ 0 []⟩
    | .items entries =>
      ⟨cust, bLoop (bLim i maxResults) (bSourcesKept i sp) (bPso i sp) (bPool i)
        entries 0 ∅ []⟩

/-! ## Specification-side companions for the Variant B text synthesis -/

/-- The (source_sku, target_sku) pairing of a collaborator suggestion,
with the fragment text dropped. -/
def stripFrag (e : Option BItem) : Option (String × String) :=
  e.map (fun o => (o.source_sku, o.target_sku))

/-- The accepted pairings of the validated-collaborator loop, each tagged
with the index of its entry in the collaborator's array. -/
def bPairs (lim : ℕ) (sources : List (String × String × String))
    (pso : List (String × List Tgt)) :
    List (Option BItem) → ℕ → ℕ → Finset String → List (ℕ × String × String)
  | [], _, _, _ => []
  | e :: rest, idx, cnt, used =>
    if lim ≤ cnt then []
    else
      match e with
      | none => bPairs lim sources pso rest (idx+1) cnt used
      | some obj =>
        let src := pyStrip obj.source_sku
        let tgt := pyStrip obj.target_sku
        if src = "" ∨ tgt = "" then bPairs lim sources pso rest (idx+1) cnt used
        else
          match metaLookup sources src with
          | none => bPairs lim sources pso rest (idx+1) cnt used
          | some _ =>
            if tgt ∉ allowedTargets pso src then
              bPairs lim sources pso rest (idx+1) cnt used
            else if tgt ∈ used then
              bPairs lim sources pso rest (idx+1) cnt used
            else
              (idx, src, tgt) :: bPairs lim sources pso rest (idx+1) (cnt+1)
                (insert tgt used)

/-- Template rendering of an accepted pairing: verb from the source's
action, server-side titles, CTA rotated by the stored index. -/
def renderB (sources : List (String × String × String)) (pool : List Tgt)
    (p : ℕ × String × String) : Suggestion :=
  let m := (metaLookup sources p.2.1).getD ("", "")
  ⟨mkText (action_verb m.1) m.2 (CTAS.getD (p.1 % CTAS.length) "")
    (targetTitleMap pool p.2.2), p.2.1, p.2.2⟩

/-- A deterministic-fallback pick: emission index, verb, source title,
source sku and the chosen option. -/
structure FbPick where
  idx : ℕ
  verb : String
  srcTitle : String
  src : String
  tgt : Tgt
deriving DecidableEq

/-- Template rendering of a fallback pick. -/
def renderFb (p : FbPick) : Suggestion :=
  ⟨mkText p.verb p.srcTitle (CTAS.getD (p.idx % CTAS.length) "") p.tgt.title,
    p.src, p.tgt.sku⟩

/-- The picks of the fallback inner loop, with the emission counter and the
running count threaded explicitly. -/
def fbPicksInner (lim : ℕ) (src verbText srcTitle : String) :
    List Tgt → Finset String → ℕ → ℕ → List FbPick × Finset String × ℕ × ℕ
  | [], used, idx, cnt => ([], used, idx, cnt)
  | opt :: rest, used, idx, cnt =>
    if opt.sku ≠ src ∧ opt.sku ∉ used then
      let pk : FbPick := ⟨idx, verbText, srcTitle, src, opt⟩
      if lim ≤ cnt + 1 then ([pk], insert opt.sku used, idx+1, cnt+1)
      else
        let r := fbPicksInner lim src verbText srcTitle rest (insert opt.sku used)
          (idx+1) (cnt+1)
        (pk :: r.1, r.2)
    else fbPicksInner lim src verbText srcTitle rest used idx cnt

/-- The picks of the fallback outer loop. -/
def fbPicksOuter (lim : ℕ) (pso : List (String × List Tgt)) :
    List (String × String × String) → Finset String → ℕ → ℕ → List FbPick
  | [], _, _, _ => []
  | (action, src, srcTitle) :: rest, used, idx, cnt =>
    let r := fbPicksInner lim src (action_verb action) srcTitle
      ((lookupLast pso src).getD []) used idx cnt
    r.1 ++ (if lim ≤ r.2.2.2 then []
            else fbPicksOuter lim pso rest r.2.1 r.2.2.1 r.2.2.2)

/-! ## Concrete request/collaborator data used in closed statements -/

/-- One clicked item, resolved with title "Alpha". -/
def iA : PipeIn :=
  { clicked := ["A"],
    clickedPayloads := [{ sku := some "A", title := some "Alpha" }] }

/-- Two clicked items A, B. -/
def iAB : PipeIn :=
  { clicked := ["A", "B"],
    clickedPayloads :=
      [{ sku := some "A", title := some "Alpha" },
       { sku := some "B", title := some "Beta" }] }

/-- A collaborator response for `iAB` that repeats id "A" twice, with the
original score. -/
def entDup : List (Option AItem) :=
  [some { id := some "A", score := some 0.6 },
   some { id := some "A", score := some 0.6, reasons := ["clicked"] }]

/-- Variant B request with one clicked source C, `exclude_bought := false`,
and a vector result containing the bought item B. -/
def i8 : PipeIn :=
  { clicked := ["C"], bought := ["B"], exclude_bought := false,
    vecResults :=
      [{ payload := some { sku := some "B", title := some "Bee" } },
       { payload := some { sku := some "T", title := some "Tee" } }] }

/-- Variant B request with one clicked source C and two targets. -/
def i9 : PipeIn :=
  { clicked := ["C"],
    vecResults :=
      [{ payload := some { sku := some "T1", title := some "Target One" } },
       { payload := some { sku := some "T2", title := some "Target Two" } }] }

def sp9 : List (String × Payload) := [("C", { title := some "Source C" })]

/-- A collaborator array whose first element is not an object: the single
valid pairing sits at array index 1. -/
def ent9 : List (Option BItem) :=
  [none, some { source_sku := "C", target_sku := "T1", fragment := "buy it now" }]

/-- Two collaborator arrays with identical pairings and different
fragments. -/
def ent7a : List (Option BItem) :=
  [some { source_sku := "C", target_sku := "T1", fragment := "x" }]

def ent7b : List (Option BItem) :=
  [some { source_sku := "C", target_sku := "T1", fragment := "a wholly different phrase" }]

/-- Exclusion witness request: one clicked item T, one bought item B, the
vector store returning both. -/
def iW : PipeIn :=
  { clicked := ["T"], bought := ["B"],
    vecResults := [{ payload := some { sku := some "B" } },
                   { payload := some { sku := some "T" } }] }

/-! # Theorems -/

/-! ## Stable-sort infrastructure -/

theorem mem_insertD {α : Type} (le : α → α → Bool) (a : α) :
    ∀ l (x : α), x ∈ insertD le a l ↔ x = a ∨ x ∈ l
  | [], x => by simp [insertD]
  | b :: l, x => by
    by_cases h : le a b = true
    · simp [insertD, h]
    · simp only [insertD, if_neg h, List.mem_cons, mem_insertD le a l x]
      tauto

theorem perm_insertD {α : Type} (le : α → α → Bool) (a : α) :
    ∀ l, (insertD le a l).Perm (a :: l)
  | [] => by simp [insertD]
  | b :: l => by
    by_cases h : le a b = true
    · simp [insertD, h]
    · simp only [insertD, if_neg h]
      exact ((perm_insertD le a l).cons b).trans (List.Perm.swap a b l)

theorem perm_sortD {α : Type} (le : α → α → Bool) :
    ∀ l, (sortD le l).Perm l
  | [] => by simp [sortD]
  | a :: l => by
    simpa [sortD] using (perm_insertD le a (sortD le l)).trans ((perm_sortD le l).cons a)

theorem pairwise_insertD {α : Type} (le : α → α → Bool)
    (total : ∀ a b, le a b = true ∨ le b a = true)
    (tr : ∀ a b c, le a b = true → le b c = true → le a c = true) (a : α) :
    ∀ l, l.Pairwise (fun x y => le x y = true) →
      (insertD le a l).Pairwise (fun x y => le x y = true)
  | [], _ => by simp [insertD]
  | b :: l, h => by
    rcases List.pairwise_cons.mp h with ⟨hb, hl⟩
    by_cases hab : le a b = true
    · simp only [insertD, if_pos hab]
      refine List.Pairwise.cons ?_ h
      intro y hy
      rcases List.mem_cons.mp hy with rfl | hy
      · exact hab
      · exact tr a b y hab (hb y hy)
    · simp only [insertD, if_neg hab]
      refine List.Pairwise.cons ?_ (pairwise_insertD le total tr a l hl)
      intro y hy
      rcases (mem_insertD le a l y).mp hy with h' | hy
      · rw [h']
        exact (total a b).resolve_left hab
      · exact hb y hy

theorem pairwise_sortD {α : Type} (le : α → α → Bool)
    (total : ∀ a b, le a b = true ∨ le b a = true)
    (tr : ∀ a b c, le a b = true → le b c = true → le a c = true) :
    ∀ l, (sortD le l).Pairwise (fun x y => le x y = true)
  | [] => by simp [sortD]
  | a :: l => by
    simpa [sortD] using pairwise_insertD le total tr a (sortD le l)
      (pairwise_sortD le total tr l)

theorem sublist_insertD {α : Type} (le : α → α → Bool) (a : α) :
    ∀ l : List α, l.Sublist (insertD le a l)
  | [] => by simp [insertD]
  | b :: l => by
    by_cases h : le a b = true
    · simp only [insertD, if_pos h]
      exact List.Sublist.cons a (List.Sublist.refl _)
    · simp only [insertD, if_neg h]
      exact List.Sublist.cons₂ b (sublist_insertD le a l)

theorem cons_sublist_insertD {α : Type} (le : α → α → Bool) (a : α) :
    ∀ (l c : List α), c.Sublist l → (∀ y ∈ c, le a y = true) →
      (a :: c).Sublist (insertD le a l)
  | [], c, h, _ => by
    simp only [List.sublist_nil.mp h, insertD]
    exact List.Sublist.refl _
  | b :: l, c, h, ha => by
    by_cases hab : le a b = true
    · simp only [insertD, if_pos hab]
      exact h.cons₂ a
    · simp only [insertD, if_neg hab]
      cases h with
      | cons _ h' =>
        exact List.Sublist.cons b (cons_sublist_insertD le a l c h' ha)
      | cons₂ _ h' =>
        exact absurd (ha b (List.mem_cons_self b _)) hab

theorem sublist_sortD {α : Type} (le : α → α → Bool) :
    ∀ (l c : List α), c.Sublist l → c.Pairwise (fun x y => le x y = true) →
      c.Sublist (sortD le l)
  | [], c, h, _ => by simpa [sortD] using h
  | a :: l, c, h, hp => by
    cases h with
    | cons _ h' =>
      exact List.Sublist.trans (sublist_sortD le l c h' hp)
        (sublist_insertD le a (sortD le l))
    | cons₂ _ h' =>
      rcases List.pairwise_cons.mp hp with ⟨ha, hp'⟩
      simpa [sortD] using cons_sublist_insertD le a (sortD le l) _
        (sublist_sortD le l _ h' hp') ha

theorem keyLe_total : ∀ a b : Bool × Bool × ℚ, keyLe a b = true ∨ keyLe b a = true := by
  rintro ⟨a1, a2, a3⟩ ⟨b1, b2, b3⟩
  cases a1 <;> cases b1 <;> cases a2 <;> cases b2 <;>
    simp [keyLe, boolLt] <;> exact le_total a3 b3

theorem keyLe_trans :
    ∀ a b c : Bool × Bool × ℚ, keyLe a b = true → keyLe b c = true → keyLe a c = true := by
  rintro ⟨a1, a2, a3⟩ ⟨b1, b2, b3⟩ ⟨c1, c2, c3⟩
  cases a1 <;> cases b1 <;> cases c1 <;> cases a2 <;> cases b2 <;> cases c2 <;>
    simp [keyLe, boolLt] <;> intros <;> linarith

/-! ## Facts about the dedup/score loop and the ranked pipeline -/

theorem scoreLoop_excl (clicked carted bought : List String) (sig excl : Finset String) :
    ∀ (cands : List QPoint) (seen : Finset String) (x : ScoredItem),
      x ∈ scoreLoop clicked carted bought sig true excl cands seen → x.id ∉ excl
  | [], seen, x, h => by simp [scoreLoop] at h
  | r :: rest, seen, x, h => by
    rw [scoreLoop] at h
    split_ifs at h with h1 h2
    · exact scoreLoop_excl clicked carted bought sig excl rest seen x h
    · exact scoreLoop_excl clicked carted bought sig excl rest seen x h
    · rcases List.mem_cons.mp h with h' | h'
      · subst h'
        simp only [mkScored]
        intro hc
        exact h1 ⟨rfl, hc⟩
      · exact scoreLoop_excl clicked carted bought sig excl rest _ x h'

theorem scoreLoop_shape (clicked carted bought : List String) (sig : Finset String)
    (eb : Bool) (excl : Finset String) :
    ∀ (cands : List QPoint) (seen : Finset String) (x : ScoredItem),
      x ∈ scoreLoop clicked carted bought sig eb excl cands seen →
        x.score = round4 (score_candidate_unified x.id x.tags clicked carted bought sig).1
        ∧ x.overlap_tags_frac
            = round4 (score_candidate_unified x.id x.tags clicked carted bought sig).2.2.1
  | [], seen, x, h => by simp [scoreLoop] at h
  | r :: rest, seen, x, h => by
    rw [scoreLoop] at h
    split_ifs at h with h1 h2
    · exact scoreLoop_shape clicked carted bought sig eb excl rest seen x h
    · exact scoreLoop_shape clicked carted bought sig eb excl rest seen x h
    · rcases List.mem_cons.mp h with h' | h'
      · subst h'
        exact ⟨rfl, rfl⟩
      · exact scoreLoop_shape clicked carted bought sig eb excl rest _ x h'

theorem mem_rankSort (carted clicked : List String) (l : List ScoredItem)
    (x : ScoredItem) : x ∈ rankSort carted clicked l ↔ x ∈ l :=
  (perm_sortD _ l).mem_iff

theorem rankingPolicy_subset (carted clicked : List String) (thr : ℚ)
    (tk mr : ℕ) (l : List ScoredItem) :
    ∀ x ∈ rankingPolicy carted clicked thr tk mr l, x ∈ l := by
  intro x hx
  have h1 := List.mem_of_mem_take hx
  have h2 := (List.mem_filter.mp h1).1
  exact (mem_rankSort carted clicked l x).mp h2

theorem pipeTop_subset (i : PipeIn) (mr : ℕ) (thr : ℚ) :
    ∀ x ∈ pipeTop i mr thr, x ∈ pipeScored i := by
  intro x hx
  exact rankingPolicy_subset _ _ _ _ _ _ x hx

theorem pipeScored_not_bought (i : PipeIn) (h : i.exclude_bought = true) :
    ∀ x ∈ pipeScored i, x.id ∉ i.bought := by
  intro x hx
  have := scoreLoop_excl i.clicked i.carted i.bought
    (build_signal_tags i.sigPayloads) i.bought.toFinset (aggregated i) ∅ x
  rw [pipeScored, h] at hx
  simp only [if_pos rfl] at hx
  intro hb
  exact this hx (List.mem_toFinset.mpr hb)

/-! ## Facts about the Variant A validation loops -/

theorem allowedLookup_some (top : List ScoredItem) (i : String) (sc : ℚ)
    (h : allowedLookup top i = some sc) : ∃ t ∈ top, t.id = i ∧ t.score = sc := by
  unfold allowedLookup at h
  cases hfind : top.reverse.find? (fun r => decide (r.id = i)) with
  | none => simp [hfind] at h
  | some t =>
    refine ⟨t, List.mem_reverse.mp (List.mem_of_find?_eq_some hfind), ?_, ?_⟩
    · simpa using List.find?_some hfind
    · simp [hfind] at h
      exact h

theorem acceptLoop_eq_nolookup (top : List ScoredItem) (it : AItem)
    (rest : List (Option AItem)) (acc : List RespItem)
    (hal : allowedLookup top (pyStr it.id) = none) :
    acceptLoop top (some it :: rest) acc =
      if top.length ≤ acc.length then some acc else acceptLoop top rest acc := by
  simp only [acceptLoop, hal]

theorem acceptLoop_eq_noscore (top : List ScoredItem) (it : AItem)
    (rest : List (Option AItem)) (acc : List RespItem) (sc : ℚ)
    (hal : allowedLookup top (pyStr it.id) = some sc) (hsc : it.score = none) :
    acceptLoop top (some it :: rest) acc = none := by
  simp only [acceptLoop, hal, hsc]

theorem acceptLoop_eq_score (top : List ScoredItem) (it : AItem)
    (rest : List (Option AItem)) (acc : List RespItem) (sc s : ℚ)
    (hal : allowedLookup top (pyStr it.id) = some sc) (hsc : it.score = some s) :
    acceptLoop top (some it :: rest) acc =
      if |s - sc| < 1/1000000 then
        if top.length ≤ (acc ++ [acceptedItem it s]).length
        then some (acc ++ [acceptedItem it s])
        else acceptLoop top rest (acc ++ [acceptedItem it s])
      else if top.length ≤ acc.length then some acc else acceptLoop top rest acc := by
  simp only [acceptLoop, hal, hsc, acceptedItem]

theorem acceptLoop_mem (top : List ScoredItem) :
    ∀ (entries : List (Option AItem)) (acc fin : List RespItem),
      acceptLoop top entries acc = some fin →
      ∀ x ∈ fin, x ∈ acc ∨
        ∃ t ∈ top, x.id = t.id ∧ |x.score - t.score| < 1/1000000
  | [], acc, fin, h, x, hx => by
    simp only [acceptLoop, Option.some_inj] at h
    subst h
    exact Or.inl hx
  | none :: rest, acc, fin, h, x, hx => by
    simp [acceptLoop] at h
  | some it :: rest, acc, fin, h, x, hx => by
    cases hal : allowedLookup top (pyStr it.id) with
    | none =>
      rw [acceptLoop_eq_nolookup top it rest acc hal] at h
      split_ifs at h with h1
      · simp only [Option.some_inj] at h
        subst h
        exact Or.inl hx
      · exact acceptLoop_mem top rest acc fin h x hx
    | some sc =>
      cases hsc : it.score with
      | none =>
        rw [acceptLoop_eq_noscore top it rest acc sc hal hsc] at h
        exact absurd h (by simp)
      | some s =>
        rw [acceptLoop_eq_score top it rest acc sc s hal hsc] at h
        by_cases heps : |s - sc| < 1/1000000
        · rw [if_pos heps] at h
          have hitem : x ∈ acc ++ [acceptedItem it s] →
              x ∈ acc ∨ ∃ t ∈ top, x.id = t.id ∧ |x.score - t.score| < 1/1000000 := by
            intro hmem
            rcases List.mem_append.mp hmem with h' | h'
            · exact Or.inl h'
            · rcases allowedLookup_some top (pyStr it.id) sc hal with ⟨t, ht, hid, hscore⟩
              have hx' := List.mem_singleton.mp h'
              subst hx'
              refine Or.inr ⟨t, ht, hid.symm, ?_⟩
              simpa [acceptedItem, hscore] using heps
          split_ifs at h with h2
          · simp only [Option.some_inj] at h
            subst h
            exact hitem hx
          · rcases acceptLoop_mem top rest _ fin h x hx with h' | h'
            · exact hitem h'
            · exact Or.inr h'
        · rw [if_neg heps] at h
          split_ifs at h with h3
          · simp only [Option.some_inj] at h
            subst h
            exact Or.inl hx
          · exact acceptLoop_mem top rest acc fin h x hx

theorem fillLoop_cons (n : ℕ) (kset : Finset String) (r : ScoredItem)
    (rest : List ScoredItem) (fin : List RespItem) :
    fillLoop n kset (r :: rest) fin =
      if r.id ∈ kset then fillLoop n kset rest fin
      else if n ≤ (fin ++ [projFinal r]).length then fin ++ [projFinal r]
      else fillLoop n kset rest (fin ++ [projFinal r]) := by
  simp only [fillLoop]

theorem fillLoop_mem (n : ℕ) (kset : Finset String) :
    ∀ (top : List ScoredItem) (fin : List RespItem) (x : RespItem),
      x ∈ fillLoop n kset top fin → x ∈ fin ∨ ∃ t ∈ top, x = projFinal t
  | [], fin, x, h => by
    simp only [fillLoop] at h
    exact Or.inl h
  | r :: rest, fin, x, h => by
    rw [fillLoop_cons] at h
    split_ifs at h with h1 h2
    · rcases fillLoop_mem n kset rest fin x h with h' | ⟨t, ht, hx⟩
      · exact Or.inl h'
      · exact Or.inr ⟨t, List.mem_cons_of_mem r ht, hx⟩
    · rcases List.mem_append.mp h with h' | h'
      · exact Or.inl h'
      · exact Or.inr ⟨r, List.mem_cons_self r rest, List.mem_singleton.mp h'⟩
    · rcases fillLoop_mem n kset rest _ x h with h' | ⟨t, ht, hx⟩
      · rcases List.mem_append.mp h' with h'' | h''
        · exact Or.inl h''
        · exact Or.inr ⟨r, List.mem_cons_self r rest, List.mem_singleton.mp h''⟩
      · exact Or.inr ⟨t, List.mem_cons_of_mem r ht, hx⟩

/-! ## Facts about the Variant B pools and loops -/

theorem targetPool_mem (excl : Finset String) :
    ∀ (cands : List QPoint) (seen : Finset String) (t : Tgt),
      t ∈ targetPool excl cands seen → t.sku ∉ excl ∧ t.sku ≠ ""
  | [], seen, t, h => by simp [targetPool] at h
  | r :: rest, seen, t, h => by
    rw [targetPool] at h
    split_ifs at h with h1
    · exact targetPool_mem excl rest seen t h
    · rcases List.mem_cons.mp h with h' | h'
      · subst h'
        push_neg at h1
        exact ⟨h1.2.1, h1.1⟩
      · exact targetPool_mem excl rest _ t h'

theorem buildOptions_inv (pool : List Tgt) (ops : ℕ) (src : String)
    (hpool : pool ≠ []) :
    ∀ (rem ti : ℕ) (acc : List Tgt), ti < pool.length →
      (∀ t ∈ acc, t ∈ pool ∧ t.sku ≠ src) →
      (∀ t ∈ (buildOptions pool ops src ti rem acc).1, t ∈ pool ∧ t.sku ≠ src)
      ∧ (buildOptions pool ops src ti rem acc).2 < pool.length
  | 0, ti, acc, hti, hacc => by
    simpa [buildOptions] using ⟨hacc, hti⟩
  | rem+1, ti, acc, hti, hacc => by
    simp only [buildOptions]
    have hlen : 0 < pool.length := List.length_pos.mpr hpool
    have hti' : (ti + 1) % pool.length < pool.length := Nat.mod_lt _ hlen
    have hmem : pool.getD ti ⟨"", ""⟩ ∈ pool := by
      rw [List.getD_eq_getElem pool ⟨"", ""⟩ hti]
      exact List.getElem_mem hti
    split_ifs with h1 h2
    · exact buildOptions_inv pool ops src hpool rem _ acc hti' hacc
    · refine buildOptions_inv pool ops src hpool rem _ _ hti' ?_
      intro t ht
      rcases List.mem_append.mp ht with h' | h'
      · exact hacc t h'
      · have hts := List.mem_singleton.mp h'
        subst hts
        exact ⟨hmem, h2⟩
    · exact ⟨hacc, hti⟩

theorem perSourceOptions_nil (ops : ℕ) :
    ∀ (sources : List (String × String × String)) (ti : ℕ),
      perSourceOptions [] ops sources ti = []
  | [], ti => by simp [perSourceOptions]
  | (a, src, st) :: rest, ti => by
    rw [perSourceOptions]
    simp [buildOptions, perSourceOptions_nil ops rest]

theorem perSourceOptions_mem (pool : List Tgt) (ops : ℕ) :
    ∀ (sources : List (String × String × String)) (ti : ℕ), ti < pool.length →
      ∀ (src : String) (opts : List Tgt), (src, opts) ∈ perSourceOptions pool ops sources ti →
        ∀ t ∈ opts, t ∈ pool ∧ t.sku ≠ src
  | [], ti, hti, src, opts, h => by simp [perSourceOptions] at h
  | (a, s0, st) :: rest, ti, hti, src, opts, h => by
    have hpool : pool ≠ [] := by
      intro hc
      rw [hc] at hti
      simp at hti
    rw [perSourceOptions] at h
    have hinv := buildOptions_inv pool ops s0 hpool pool.length ti [] hti (by simp)
    rcases List.mem_append.mp h with h' | h'
    · split_ifs at h' with h1
      · simp at h'
      · have hps := List.mem_singleton.mp h'
        rw [Prod.mk.injEq] at hps
        intro t ht
        rw [hps.2] at ht
        rw [hps.1]
        exact hinv.1 t ht
    · exact perSourceOptions_mem pool ops rest _ hinv.2 src opts h'

theorem bPairs_frag (lim : ℕ) (s : List (String × String × String))
    (pso : List (String × List Tgt)) :
    ∀ (e1 e2 : List (Option BItem)) (idx cnt : ℕ) (used : Finset String),
      e1.map stripFrag = e2.map stripFrag →
      bPairs lim s pso e1 idx cnt used = bPairs lim s pso e2 idx cnt used
  | [], e2, idx, cnt, used, h => by
    have : e2 = [] := by
      cases e2 with
      | nil => rfl
      | cons b t => simp [stripFrag] at h
    subst this
    rfl
  | a :: t1, e2, idx, cnt, used, h => by
    cases e2 with
    | nil => simp [stripFrag] at h
    | cons b t2 =>
      simp only [List.map_cons, List.cons.injEq] at h
      have htail := bPairs_frag lim s pso t1 t2 (idx+1) cnt used h.2
      have htail' := fun cnt' used' =>
        bPairs_frag lim s pso t1 t2 (idx+1) cnt' used' h.2
      cases a with
      | none =>
        cases b with
        | none => simp only [bPairs]; rw [htail]
        | some ob => simp [stripFrag] at h
      | some oa =>
        cases b with
        | none => simp [stripFrag] at h
        | some ob =>
          have hsrc : oa.source_sku = ob.source_sku := by
            have h1 := h.1
            simp [stripFrag] at h1
            exact h1.1
          have htgt : oa.target_sku = ob.target_sku := by
            have h1 := h.1
            simp [stripFrag] at h1
            exact h1.2
          rw [bPairs, bPairs]
          by_cases hbrk : lim ≤ cnt
          · rw [if_pos hbrk, if_pos hbrk]
          · rw [if_neg hbrk, if_neg hbrk]
            simp only [hsrc, htgt]
            by_cases hemp : pyStrip ob.source_sku = "" ∨ pyStrip ob.target_sku = ""
            · rw [if_pos hemp, if_pos hemp]
              exact htail' cnt used
            · rw [if_neg hemp, if_neg hemp]
              cases hml : metaLookup s (pyStrip ob.source_sku) with
              | none => exact htail' cnt used
              | some m =>
                by_cases hall : pyStrip ob.target_sku ∉ allowedTargets pso (pyStrip ob.source_sku)
                · rw [if_pos hall, if_pos hall]
                  exact htail' cnt used
                · rw [if_neg hall, if_neg hall]
                  by_cases hused : pyStrip ob.target_sku ∈ used
                  · rw [if_pos hused, if_pos hused]
                    exact htail' cnt used
                  · rw [if_neg hused, if_neg hused]
                    rw [htail' (cnt+1) (insert (pyStrip ob.target_sku) used)]

theorem bPairs_valid (lim : ℕ) (s : List (String × String × String))
    (pso : List (String × List Tgt)) :
    ∀ (entries : List (Option BItem)) (idx cnt : ℕ) (used : Finset String)
      (p : ℕ × String × String), p ∈ bPairs lim s pso entries idx cnt used →
        (metaLookup s p.2.1).isSome ∧ p.2.2 ∈ allowedTargets pso p.2.1
  | [], idx, cnt, used, p, h => by simp [bPairs] at h
  | none :: rest, idx, cnt, used, p, h => by
    rw [bPairs] at h
    split_ifs at h with h1
    · simp at h
    · exact bPairs_valid lim s pso rest (idx+1) cnt used p h
  | some obj :: rest, idx, cnt, used, p, h => by
    simp only [bPairs] at h
    by_cases h1 : lim ≤ cnt
    · rw [if_pos h1] at h
      simp at h
    · rw [if_neg h1] at h
      by_cases h2 : pyStrip obj.source_sku = "" ∨ pyStrip obj.target_sku = ""
      · rw [if_pos h2] at h
        exact bPairs_valid lim s pso rest (idx+1) cnt used p h
      · rw [if_neg h2] at h
        cases hml : metaLookup s (pyStrip obj.source_sku) with
        | none =>
          simp only [hml] at h
          exact bPairs_valid lim s pso rest (idx+1) cnt used p h
        | some m =>
          simp only [hml] at h
          by_cases h3 : pyStrip obj.target_sku ∉ allowedTargets pso (pyStrip obj.source_sku)
          · rw [if_pos h3] at h
            exact bPairs_valid lim s pso rest (idx+1) cnt used p h
          · rw [if_neg h3] at h
            by_cases h4 : pyStrip obj.target_sku ∈ used
            · rw [if_pos h4] at h
              exact bPairs_valid lim s pso rest (idx+1) cnt used p h
            · rw [if_neg h4] at h
              rcases List.mem_cons.mp h with h' | h'
              · subst h'
                refine ⟨?_, ?_⟩
                · rw [hml]
                  rfl
                · simpa using not_not.mp h3
              · exact bPairs_valid lim s pso rest (idx+1) (cnt+1) _ p h'

theorem bLoop_eq_pairs (lim : ℕ) (s : List (String × String × String))
    (pso : List (String × List Tgt)) (pool : List Tgt) :
    ∀ (entries : List (Option BItem)) (idx : ℕ) (used : Finset String)
      (acc : List Suggestion),
      bLoop lim s pso pool entries idx used acc
        = acc ++ (bPairs lim s pso entries idx acc.length used).map (renderB s pool)
  | [], idx, used, acc => by simp [bLoop, bPairs]
  | e :: rest, idx, used, acc => by
    cases e with
    | none =>
      simp only [bLoop, bPairs]
      by_cases hbrk : lim ≤ acc.length
      · simp [hbrk]
      · rw [if_neg hbrk, if_neg hbrk]
        exact bLoop_eq_pairs lim s pso pool rest (idx+1) used acc
    | some obj =>
      simp only [bLoop, bPairs]
      by_cases hbrk : lim ≤ acc.length
      · simp [hbrk]
      · rw [if_neg hbrk, if_neg hbrk]
        by_cases hemp : pyStrip obj.source_sku = "" ∨ pyStrip obj.target_sku = ""
        · rw [if_pos hemp, if_pos hemp]
          exact bLoop_eq_pairs lim s pso pool rest (idx+1) used acc
        · rw [if_neg hemp, if_neg hemp]
          cases hml : metaLookup s (pyStrip obj.source_sku) with
          | none =>
            simp only [hml]
            exact bLoop_eq_pairs lim s pso pool rest (idx+1) used acc
          | some m =>
            simp only [hml]
            by_cases hall : pyStrip obj.target_sku ∉ allowedTargets pso (pyStrip obj.source_sku)
            · rw [if_pos hall, if_pos hall]
              exact bLoop_eq_pairs lim s pso pool rest (idx+1) used acc
            · rw [if_neg hall, if_neg hall]
              by_cases hused : pyStrip obj.target_sku ∈ used
              · rw [if_pos hused, if_pos hused]
                exact bLoop_eq_pairs lim s pso pool rest (idx+1) used acc
              · rw [if_neg hused, if_neg hused]
                have hrec := bLoop_eq_pairs lim s pso pool rest (idx+1)
                  (insert (pyStrip obj.target_sku) used)
                  (acc ++ [⟨mkText (action_verb m.1) m.2 (CTAS.getD (idx % CTAS.length) "")
                    (targetTitleMap pool (pyStrip obj.target_sku)),
                    pyStrip obj.source_sku, pyStrip obj.target_sku⟩])
                rw [hrec]
                simp only [List.map_cons, List.length_append, List.length_singleton,
                  List.append_assoc, List.singleton_append]
                congr 2
                simp [renderB, hml]

theorem bFbInner_eq (lim : ℕ) (src v st : String) :
    ∀ (opts : List Tgt) (used : Finset String) (idx : ℕ) (acc : List Suggestion),
      bFbInner lim src v st opts used idx acc
        = (acc ++ ((fbPicksInner lim src v st opts used idx acc.length).1).map renderFb,
           (fbPicksInner lim src v st opts used idx acc.length).2.1,
           (fbPicksInner lim src v st opts used idx acc.length).2.2.1)
      ∧ (fbPicksInner lim src v st opts used idx acc.length).2.2.2
          = acc.length + (fbPicksInner lim src v st opts used idx acc.length).1.length
  | [], used, idx, acc => by simp [bFbInner, fbPicksInner]
  | opt :: rest, used, idx, acc => by
    rw [bFbInner, fbPicksInner]
    by_cases hpick : opt.sku ≠ src ∧ opt.sku ∉ used
    · rw [if_pos hpick, if_pos hpick]
      simp only
      by_cases hlim : lim ≤ acc.length + 1
      · have hlim' : lim ≤ (acc ++ [(⟨mkText v st (CTAS.getD (idx % CTAS.length) "")
            opt.title, src, opt.sku⟩ : Suggestion)]).length := by
          simpa using hlim
        rw [if_pos hlim', if_pos hlim]
        simp [renderFb]
      · have hlim' : ¬ lim ≤ (acc ++ [(⟨mkText v st (CTAS.getD (idx % CTAS.length) "")
            opt.title, src, opt.sku⟩ : Suggestion)]).length := by
          simpa using hlim
        rw [if_neg hlim', if_neg hlim]
        have hrec := bFbInner_eq lim src v st rest (insert opt.sku used) (idx+1)
          (acc ++ [(⟨mkText v st (CTAS.getD (idx % CTAS.length) "") opt.title,
            src, opt.sku⟩ : Suggestion)])
        simp only [List.length_append, List.length_singleton] at hrec
        refine ⟨?_, ?_⟩
        · rw [hrec.1]
          simp [renderFb, List.append_assoc]
        · rw [hrec.2]
          simp only [List.length_cons]
          omega
    · rw [if_neg hpick, if_neg hpick]
      exact bFbInner_eq lim src v st rest used idx acc

theorem bFbOuter_eq (lim : ℕ) (pso : List (String × List Tgt)) :
    ∀ (sources : List (String × String × String)) (used : Finset String)
      (idx : ℕ) (acc : List Suggestion),
      bFbOuter lim pso sources used idx acc
        = acc ++ (fbPicksOuter lim pso sources used idx acc.length).map renderFb
  | [], used, idx, acc => by simp [bFbOuter, fbPicksOuter]
  | (action, src, st) :: rest, used, idx, acc => by
    rw [bFbOuter, fbPicksOuter]
    have hin := bFbInner_eq lim src (action_verb action) st
      ((lookupLast pso src).getD []) used idx acc
    rw [hin.1]
    simp only
    have hlen : (acc ++ ((fbPicksInner lim src (action_verb action) st
        ((lookupLast pso src).getD []) used idx acc.length).1).map renderFb).length
        = (fbPicksInner lim src (action_verb action) st
        ((lookupLast pso src).getD []) used idx acc.length).2.2.2 := by
      rw [hin.2]
      simp
    by_cases hbrk : lim ≤ (fbPicksInner lim src (action_verb action) st
        ((lookupLast pso src).getD []) used idx acc.length).2.2.2
    · rw [if_pos hbrk, if_pos (hlen ▸ hbrk)]
      simp
    · rw [if_neg hbrk, if_neg (fun hc => hbrk (hlen ▸ hc))]
      have hrec := bFbOuter_eq lim pso rest
        (fbPicksInner lim src (action_verb action) st
          ((lookupLast pso src).getD []) used idx acc.length).2.1
        (fbPicksInner lim src (action_verb action) st
          ((lookupLast pso src).getD []) used idx acc.length).2.2.1
        (acc ++ ((fbPicksInner lim src (action_verb action) st
          ((lookupLast pso src).getD []) used idx acc.length).1).map renderFb)
      rw [hrec]
      rw [hlen]
      simp [List.append_assoc]

theorem fbPicksInner_idx (lim : ℕ) (src v st : String) :
    ∀ (opts : List Tgt) (used : Finset String) (idx cnt : ℕ),
      ((fbPicksInner lim src v st opts used idx cnt).1.map FbPick.idx
        = List.range' idx (fbPicksInner lim src v st opts used idx cnt).1.length)
      ∧ (fbPicksInner lim src v st opts used idx cnt).2.2.1
          = idx + (fbPicksInner lim src v st opts used idx cnt).1.length
  | [], used, idx, cnt => by simp [fbPicksInner]
  | opt :: rest, used, idx, cnt => by
    rw [fbPicksInner]
    by_cases hpick : opt.sku ≠ src ∧ opt.sku ∉ used
    · rw [if_pos hpick]
      simp only
      by_cases hlim : lim ≤ cnt + 1
      · rw [if_pos hlim]
        simp [List.range']
      · rw [if_neg hlim]
        have hrec := fbPicksInner_idx lim src v st rest (insert opt.sku used)
          (idx+1) (cnt+1)
        refine ⟨?_, ?_⟩
        · simp only [List.map_cons, List.length_cons, hrec.1, List.range']
        · simp only [List.length_cons, hrec.2]
          omega
    · rw [if_neg hpick]
      exact fbPicksInner_idx lim src v st rest used idx cnt

theorem fbPicksOuter_idx (lim : ℕ) (pso : List (String × List Tgt)) :
    ∀ (sources : List (String × String × String)) (used : Finset String)
      (idx cnt : ℕ),
      (fbPicksOuter lim pso sources used idx cnt).map FbPick.idx
        = List.range' idx (fbPicksOuter lim pso sources used idx cnt).length
  | [], used, idx, cnt => by simp [fbPicksOuter]
  | (action, src, st) :: rest, used, idx, cnt => by
    rw [fbPicksOuter]
    have hin := fbPicksInner_idx lim src (action_verb action) st
      ((lookupLast pso src).getD []) used idx cnt
    split_ifs with hbrk
    · simpa using hin.1
    · have hrec := fbPicksOuter_idx lim pso rest
        (fbPicksInner lim src (action_verb action) st
          ((lookupLast pso src).getD []) used idx cnt).2.1
        (fbPicksInner lim src (action_verb action) st
          ((lookupLast pso src).getD []) used idx cnt).2.2.1
        (fbPicksInner lim src (action_verb action) st
          ((lookupLast pso src).getD []) used idx cnt).2.2.2
      rw [List.map_append, hin.1, hrec, hin.2, List.length_append]
      simpa [Nat.add_comm] using List.range'_append_1 idx
        ((fbPicksInner lim src (action_verb action) st
          ((lookupLast pso src).getD []) used idx cnt).1.length)
        ((fbPicksOuter lim pso rest
          (fbPicksInner lim src (action_verb action) st
            ((lookupLast pso src).getD []) used idx cnt).2.1
          (fbPicksInner lim src (action_verb action) st
            ((lookupLast pso src).getD []) used idx cnt).2.2.1
          (fbPicksInner lim src (action_verb action) st
            ((lookupLast pso src).getD []) used idx cnt).2.2.2).length)

/-- Every item of every Variant A response (accepted, filled or fallback)
carries the id of some item of the deterministic `top`, with a score within
`1e-6` of it. -/
theorem prefsLlm_ids_from_top (i : PipeIn) (mr : ℕ) (thr : ℚ) (outcome : AOutcome) :
    ∀ x ∈ (recommend_with_prefs_llm i mr thr outcome).recommendations,
      ∃ t ∈ pipeTop i mr thr, x.id = t.id ∧ |x.score - t.score| < 1/1000000 := by
  intro x hx
  have habs : ∀ t : ScoredItem, |(projFinal t).score - t.score| < (1 : ℚ)/1000000 := by
    intro t
    simp [projFinal]
  cases outcome with
  | failure =>
    simp only [recommend_with_prefs_llm] at hx
    rcases List.mem_map.mp hx with ⟨t, ht, rfl⟩
    exact ⟨t, ht, rfl, habs t⟩
  | items entries =>
    simp only [recommend_with_prefs_llm] at hx
    cases hval : validateVariantA (pipeTop i mr thr) entries with
    | none =>
      rw [hval] at hx
      simp only at hx
      rcases List.mem_map.mp hx with ⟨t, ht, rfl⟩
      exact ⟨t, ht, rfl, habs t⟩
    | some fin =>
      rw [hval] at hx
      simp only at hx
      unfold validateVariantA at hval
      cases hacc : acceptLoop (pipeTop i mr thr) entries [] with
      | none => rw [hacc] at hval; simp at hval
      | some fin0 =>
        rw [hacc] at hval
        simp only [Option.some_inj] at hval
        rcases fillLoop_mem _ _ _ _ x (hval ▸ hx) with h' | ⟨t, ht, rfl⟩
        · rcases acceptLoop_mem _ entries [] fin0 hacc x h' with h'' | h''
          · simp at h''
          · exact h''
        · exact ⟨t, ht, rfl, habs t⟩

/-! ## Jaccard and score facts -/

theorem jaccard_nonneg (a b : Finset String) : 0 ≤ jaccard a b := by
  simp only [jaccard]
  split_ifs <;> positivity

theorem jaccard_le_one (a b : Finset String) : jaccard a b ≤ 1 := by
  simp only [jaccard]
  split_ifs with h1 h2
  · norm_num
  · norm_num
  · rw [div_le_one (by exact_mod_cast Nat.pos_of_ne_zero h2)]
    exact_mod_cast Finset.card_le_card Finset.inter_subset_union

theorem jaccard_empty_left (b : Finset String) : jaccard ∅ b = 0 := by
  simp [jaccard]

theorem jaccard_self (a : Finset String) (h : a ≠ ∅) : jaccard a a = 1 := by
  simp only [jaccard]
  rw [if_neg (by simp [h])]
  simp only [Finset.inter_self, Finset.union_self]
  have hc : a.card ≠ 0 := by
    simp only [ne_eq, Finset.card_eq_zero]
    exact h
  rw [if_neg hc]
  exact div_self (by exact_mod_cast hc)

theorem keyLe_refl (a : Bool × Bool × ℚ) : keyLe a a = true := by
  simp [keyLe]

/-- What following another item in the descending rank order means:
carted dominates, then clicked, then score. -/
theorem keyLe_rank_imp (carted clicked : List String) (x y : ScoredItem)
    (h : keyLe (rankKey carted clicked y) (rankKey carted clicked x) = true) :
    (y.id ∈ carted → x.id ∈ carted)
    ∧ (x.id ∉ carted → y.id ∉ carted → y.id ∈ clicked → x.id ∈ clicked)
    ∧ (x.id ∉ carted → y.id ∉ carted → x.id ∉ clicked → y.id ∉ clicked →
        y.score ≤ x.score) := by
  simp only [rankKey, keyLe, boolLt] at h
  by_cases hyc : y.id ∈ carted <;> by_cases hxc : x.id ∈ carted <;>
    by_cases hycl : y.id ∈ clicked <;> by_cases hxcl : x.id ∈ clicked <;>
    simp [hyc, hxc, hycl, hxcl] at h ⊢ <;> assumption

/-! ## Claim theorems -/

/-- C6: `score_candidate_unified` returns the clamp to [0,1] of
0.6·[clicked] + 0.8·[carted] + 0.0·[bought] + 0.4·jaccard(tags, signal
tags); jaccard is |∩|/|∪|, 0 on an empty side, 1 on a non-empty set with
itself, always in [0,1]; the clamped score is always in [0,1]; each reason
label is present exactly when its membership / tag-intersection condition
holds, independent of the clamp; the returned ratio and count are the
jaccard value and the raw intersection size. -/
theorem C6_unified_score_conformance (pid : String) (tags : List String)
    (clicked carted bought : List String) (sig : Finset String) :
    (score_candidate_unified pid tags clicked carted bought sig).1
      = max 0 (min 1 ((if pid ∈ clicked then (0.6 : ℚ) else 0)
          + (if pid ∈ carted then (0.8 : ℚ) else 0)
          + (if pid ∈ bought then (0 : ℚ) else 0)
          + (0.4 : ℚ) * jaccard tags.toFinset sig))
    ∧ (CLICK_W = 0.6 ∧ CART_W = 0.8 ∧ BOUGHT_W = 0 ∧ TAG_W = 0.4)
    ∧ 0 ≤ (score_candidate_unified pid tags clicked carted bought sig).1
    ∧ (score_candidate_unified pid tags clicked carted bought sig).1 ≤ 1
    ∧ (∀ a b : Finset String, 0 ≤ jaccard a b ∧ jaccard a b ≤ 1)
    ∧ (∀ b : Finset String, jaccard ∅ b = 0)
    ∧ (∀ a : Finset String, a ≠ ∅ → jaccard a a = 1)
    ∧ ("clicked" ∈ (score_candidate_unified pid tags clicked carted bought sig).2.1
        ↔ pid ∈ clicked)
    ∧ ("added_to_cart" ∈ (score_candidate_unified pid tags clicked carted bought sig).2.1
        ↔ pid ∈ carted)
    ∧ ("bought" ∈ (score_candidate_unified pid tags clicked carted bought sig).2.1
        ↔ pid ∈ bought)
    ∧ ("tag_overlap" ∈ (score_candidate_unified pid tags clicked carted bought sig).2.1
        ↔ 0 < (tags.toFinset ∩ sig).card)
    ∧ (score_candidate_unified pid tags clicked carted bought sig).2.2.1
        = jaccard tags.toFinset sig
    ∧ (score_candidate_unified pid tags clicked carted bought sig).2.2.2
        = (tags.toFinset ∩ sig).card := by
  refine ⟨?_, ⟨rfl, rfl, by norm_num [BOUGHT_W], rfl⟩, ?_, ?_, ?_, jaccard_empty_left,
    jaccard_self, ?_, ?_, ?_, ?_, rfl, rfl⟩
  · simp only [score_candidate_unified, CLICK_W, CART_W, BOUGHT_W, TAG_W]
    norm_num
  · exact le_max_left 0 _
  · exact max_le (by norm_num) (min_le_left 1 _)
  · exact fun a b => ⟨jaccard_nonneg a b, jaccard_le_one a b⟩
  · simp only [score_candidate_unified]
    split_ifs <;> simp_all
  · simp only [score_candidate_unified]
    split_ifs <;> simp_all
  · simp only [score_candidate_unified]
    split_ifs <;> simp_all
  · simp only [score_candidate_unified]
    split_ifs <;> simp_all

theorem C6_unified_score_conformance_witness :
    jaccard ({"x"} : Finset String) ({"x"} : Finset String) = 1
    ∧ 0 ≤ (score_candidate_unified "A" [] ["A"] [] [] ∅).1
    ∧ (score_candidate_unified "A" [] ["A"] [] [] ∅).1 ≤ 1 := by
  have h := C6_unified_score_conformance "A" [] ["A"] [] [] ∅
  exact ⟨h.2.2.2.2.2.2.1 {"x"} (by simp), h.2.2.1, h.2.2.2.1⟩

/-- C5: the ranking policy is a stable descending lexicographic sort on
(in carted, in clicked, score), then an inclusive threshold filter, then a
cap at min(top_k, configured max): the sorted list is a permutation of the
input, pairwise ordered under the descending key order (so carted items
precede non-carted, clicked precede neither-signal items regardless of
score, and scores are descending within a bucket), the survivors all meet
the threshold, the output length is at most the cap, and any equal-key
run of the input keeps its relative order in the sorted list. -/
theorem C5_ranking_policy (carted clicked : List String) (thr : ℚ)
    (tk mr : ℕ) (scored : List ScoredItem) :
    rankingPolicy carted clicked thr tk mr scored
      = ((rankSort carted clicked scored).filter
          (fun x => decide (thr ≤ x.score))).take (min tk mr)
    ∧ (rankSort carted clicked scored).Perm scored
    ∧ (rankSort carted clicked scored).Pairwise
        (fun x y => keyLe (rankKey carted clicked y) (rankKey carted clicked x) = true)
    ∧ (rankSort carted clicked scored).Pairwise
        (fun x y => (y.id ∈ carted → x.id ∈ carted)
          ∧ (x.id ∉ carted → y.id ∉ carted → y.id ∈ clicked → x.id ∈ clicked)
          ∧ (x.id ∉ carted → y.id ∉ carted → x.id ∉ clicked → y.id ∉ clicked →
              y.score ≤ x.score))
    ∧ (rankingPolicy carted clicked thr tk mr scored).Pairwise
        (fun x y => keyLe (rankKey carted clicked y) (rankKey carted clicked x) = true)
    ∧ (∀ x ∈ rankingPolicy carted clicked thr tk mr scored, thr ≤ x.score)
    ∧ (rankingPolicy carted clicked thr tk mr scored).length ≤ min tk mr
    ∧ (∀ c : List ScoredItem, c.Sublist scored →
        (∀ a ∈ c, ∀ b ∈ c, rankKey carted clicked a = rankKey carted clicked b) →
        c.Sublist (rankSort carted clicked scored)) := by
  have hsorted : (rankSort carted clicked scored).Pairwise
      (fun x y => keyLe (rankKey carted clicked y) (rankKey carted clicked x) = true) :=
    pairwise_sortD _
      (fun a b => keyLe_total (rankKey carted clicked b) (rankKey carted clicked a))
      (fun a b c hab hbc => keyLe_trans (rankKey carted clicked c)
        (rankKey carted clicked b) (rankKey carted clicked a) hbc hab) scored
  have hsub : (rankingPolicy carted clicked thr tk mr scored).Sublist
      (rankSort carted clicked scored) :=
    (List.take_sublist _ _).trans (List.filter_sublist _)
  refine ⟨rfl, perm_sortD _ scored, hsorted, ?_,
    List.Pairwise.sublist hsub hsorted, ?_, ?_, ?_⟩
  · exact hsorted.imp (fun h => keyLe_rank_imp carted clicked _ _ h)
  · intro x hx
    have h1 := List.mem_of_mem_take hx
    simpa using (List.mem_filter.mp h1).2
  · simp only [rankingPolicy]
    exact List.length_take_le _ _
  · intro c hc hk
    refine sublist_sortD _ scored c hc (List.pairwise_of_forall_mem_list ?_)
    intro a ha b hb
    rw [hk b hb a ha]
    exact keyLe_refl _

theorem C5_ranking_policy_witness :
    ([⟨"A", 0.6, [], 0, 0, "", []⟩, ⟨"B", 0.6, [], 0, 0, "", []⟩]
        : List ScoredItem).Sublist
      (rankSort [] []
        [⟨"A", 0.6, [], 0, 0, "", []⟩, ⟨"B", 0.6, [], 0, 0, "", []⟩]) := by
  have h := C5_ranking_policy [] [] SCORE_THRESHOLD 10 10
    [⟨"A", 0.6, [], 0, 0, "", []⟩, ⟨"B", 0.6, [], 0, 0, "", []⟩]
  exact h.2.2.2.2.2.2.2 _ (List.Sublist.refl _) (by simp [rankKey])

/-- C4: with exclude_bought set, no bought identifier survives into the
deduplicated scored candidate sequence, the ranked list, the points
response, or any Variant A response (validated or fallback), whatever the
collaborators returned. -/
theorem C4_bought_exclusion (i : PipeIn) (mr : ℕ) (thr : ℚ)
    (outcome : AOutcome) (h : i.exclude_bought = true) :
    (∀ x ∈ pipeScored i, x.id ∉ i.bought)
    ∧ (∀ x ∈ pipeTop i mr thr, x.id ∉ i.bought)
    ∧ (∀ x ∈ recommend_points i mr thr, x.id ∉ i.bought)
    ∧ (∀ x ∈ (recommend_with_prefs_llm i mr thr outcome).recommendations,
        x.id ∉ i.bought) := by
  have hscored := pipeScored_not_bought i h
  refine ⟨hscored, ?_, ?_, ?_⟩
  · exact fun x hx => hscored x (pipeTop_subset i mr thr x hx)
  · intro x hx
    rcases List.mem_map.mp hx with ⟨t, ht, rfl⟩
    exact hscored t (pipeTop_subset i mr thr t ht)
  · intro x hx
    rcases prefsLlm_ids_from_top i mr thr outcome x hx with ⟨t, ht, hid, _⟩
    rw [hid]
    exact hscored t (pipeTop_subset i mr thr t ht)

theorem C4_bought_exclusion_witness :
    iW.exclude_bought = true
    ∧ (⟨"T", 0.6, ["clicked"], 0, 0, "", []⟩ : ScoredItem).id ∉ iW.bought := by
  have hscored : pipeScored iW = [⟨"T", 0.6, ["clicked"], 0, 0, "", []⟩] := by
    simp [pipeScored, aggregated, build_signal_tags, scoreLoop, mkScored,
      score_candidate_unified, jaccard, candSku, pyOrStr, pyStr, round4, rhe,
      CLICK_W, CART_W, BOUGHT_W, TAG_W, iW]
    norm_num
  have h := C4_bought_exclusion iW MAX_RESULTS SCORE_THRESHOLD .failure rfl
  refine ⟨rfl, h.1 _ ?_⟩
  rw [hscored]
  exact List.mem_singleton.mpr rfl

/-- A Variant A validated list only carries ids of `top`, each with a
score within the fixed epsilon of that item's (rounded) score. -/
theorem validateVariantA_eps (top : List ScoredItem)
    (entries : List (Option AItem)) (fin : List RespItem)
    (h : validateVariantA top entries = some fin) :
    ∀ x ∈ fin, ∃ t ∈ top, x.id = t.id ∧ |x.score - t.score| < 1/1000000 := by
  intro x hx
  unfold validateVariantA at h
  cases hacc : acceptLoop top entries [] with
  | none => rw [hacc] at h; simp at h
  | some fin0 =>
    rw [hacc] at h
    simp only [Option.some_inj] at h
    rcases fillLoop_mem _ _ _ _ x (h ▸ hx) with h' | ⟨t, ht, rfl⟩
    · rcases acceptLoop_mem _ entries [] fin0 hacc x h' with h'' | h''
      · simp at h''
      · exact h''
    · exact ⟨t, ht, rfl, by simp [projFinal]⟩

/-- C10 (implicit): the score each downstream consumer sees is the unified
score rounded to 4 decimals — the scored items carry `round4` of the raw
clamped score (and of the raw overlap ratio), the ranked list is the
filter/cap over those rounded scores, the sort key's third component is the
rounded score, the Variant A epsilon check compares the collaborator's
value against the rounded score, and the threshold is an inclusive bound on
the rounded value: a raw score strictly below the default threshold whose
rounding equals it passes (14/1405), while a raw value can strictly exceed
its own rounding (1003/100000). -/
theorem C10_rounding_at_interface (i : PipeIn) (mr : ℕ) (thr : ℚ) :
    (∀ x ∈ pipeScored i,
        x.score = round4 (score_candidate_unified x.id x.tags i.clicked i.carted
          i.bought (build_signal_tags i.sigPayloads)).1
        ∧ x.overlap_tags_frac = round4 (score_candidate_unified x.id x.tags i.clicked
            i.carted i.bought (build_signal_tags i.sigPayloads)).2.2.1)
    ∧ pipeTop i mr thr
        = ((rankSort i.carted i.clicked (pipeScored i)).filter
            (fun x => decide (thr ≤ x.score))).take (min i.top_k mr)
    ∧ (∀ (c k : List String) (x : ScoredItem), (rankKey c k x).2.2 = x.score)
    ∧ (∀ (top : List ScoredItem) (entries : List (Option AItem)) (fin : List RespItem),
        validateVariantA top entries = some fin →
        ∀ x ∈ fin, ∃ t ∈ top, x.id = t.id ∧ |x.score - t.score| < 1/1000000)
    ∧ ((14 : ℚ)/1405 < SCORE_THRESHOLD ∧ round4 ((14 : ℚ)/1405) = SCORE_THRESHOLD)
    ∧ round4 ((1003 : ℚ)/100000) < (1003 : ℚ)/100000 := by
  refine ⟨?_, rfl, fun c k x => rfl, validateVariantA_eps, ⟨?_, ?_⟩, ?_⟩
  · intro x hx
    simp only [pipeScored] at hx
    exact scoreLoop_shape i.clicked i.carted i.bought _ _ _ _ _ x hx
  · norm_num [SCORE_THRESHOLD]
  · norm_num [round4, rhe, SCORE_THRESHOLD]
  · norm_num [round4, rhe]

theorem C10_rounding_at_interface_witness :
    (14 : ℚ)/1405 < SCORE_THRESHOLD ∧ round4 ((14 : ℚ)/1405) = SCORE_THRESHOLD :=
  (C10_rounding_at_interface iA MAX_RESULTS SCORE_THRESHOLD).2.2.2.2.1

/-! ## Concrete pipeline evaluations used by closed statements -/

theorem pipeTop_iA : pipeTop iA MAX_RESULTS SCORE_THRESHOLD
    = [⟨"A", 0.6, ["clicked"], 0, 0, "Alpha", []⟩] := by
  simp [pipeTop, pipeScored, aggregated, build_signal_tags, scoreLoop, mkScored,
    score_candidate_unified, jaccard, candSku, pyOrStr, pyStr, rankingPolicy, rankSort,
    sortD, insertD, keyLe, rankKey, boolLt, round4, rhe, MAX_RESULTS, SCORE_THRESHOLD,
    CLICK_W, CART_W, BOUGHT_W, TAG_W, iA]
  norm_num

theorem pipeTop_iAB : pipeTop iAB MAX_RESULTS SCORE_THRESHOLD
    = [⟨"A", 0.6, ["clicked"], 0, 0, "Alpha", []⟩,
       ⟨"B", 0.6, ["clicked"], 0, 0, "Beta", []⟩] := by
  simp [pipeTop, pipeScored, aggregated, build_signal_tags, scoreLoop, mkScored,
    score_candidate_unified, jaccard, candSku, pyOrStr, pyStr, rankingPolicy, rankSort,
    sortD, insertD, keyLe, rankKey, boolLt, round4, rhe, MAX_RESULTS, SCORE_THRESHOLD,
    CLICK_W, CART_W, BOUGHT_W, TAG_W, iAB]
  norm_num

/-- C1 (code bug): the `top` list of request `iAB` has two items, yet a
collaborator response that repeats id "A" twice with the original score is
accepted twice, the fill loop then appends the unrepresented "B", and the
endpoint returns three recommendations (with no fallback marker): the
generation-validation step does not preserve cardinality on duplicate
ids. -/
theorem C1_cardinality_not_preserved :
    (pipeTop iAB MAX_RESULTS SCORE_THRESHOLD).length = 2
    ∧ (recommend_with_prefs_llm iAB MAX_RESULTS SCORE_THRESHOLD
        (.items entDup)).recommendations.length = 3
    ∧ (recommend_with_prefs_llm iAB MAX_RESULTS SCORE_THRESHOLD
        (.items entDup)).note = none := by
  have h := pipeTop_iAB
  refine ⟨by rw [h]; rfl, ?_, ?_⟩ <;>
    simp [recommend_with_prefs_llm, h, validateVariantA, acceptLoop, allowedLookup,
      fillLoop, projFinal, pyStr, entDup]

/-- C3 (code bug): on the same duplicate-id collaborator response the
Variant A response lists identifier "A" twice — identifiers are not unique
within one response. -/
theorem C3_duplicate_identifier :
    (recommend_with_prefs_llm iAB MAX_RESULTS SCORE_THRESHOLD
        (.items entDup)).recommendations.map (fun r => r.id) = ["A", "A", "B"]
    ∧ ¬ ((recommend_with_prefs_llm iAB MAX_RESULTS SCORE_THRESHOLD
        (.items entDup)).recommendations.map (fun r => r.id)).Nodup := by
  have h := pipeTop_iAB
  have heq : (recommend_with_prefs_llm iAB MAX_RESULTS SCORE_THRESHOLD
      (.items entDup)).recommendations.map (fun r => r.id) = ["A", "A", "B"] := by
    simp [recommend_with_prefs_llm, h, validateVariantA, acceptLoop, allowedLookup,
      fillLoop, projFinal, pyStr, entDup]
  refine ⟨heq, ?_⟩
  rw [heq]
  decide

/-- C2 counterexample: on a generative-transport failure the Variant A
response is not byte-identical to the deterministic points response for
the same request — the fallback items drop the overlap/title fields. -/
theorem C2_fallback_not_identical :
    (recommend_with_prefs_llm iA MAX_RESULTS SCORE_THRESHOLD
        .failure).recommendations
      ≠ recommend_points iA MAX_RESULTS SCORE_THRESHOLD
    ∧ (recommend_with_prefs_llm iA MAX_RESULTS SCORE_THRESHOLD .failure).note
      = some "llm-fallback" := by
  have h := pipeTop_iA
  constructor
  · simp [recommend_with_prefs_llm, recommend_points, h, projFinal, toPointsItem]
  · rfl

/-- C2 amended: on any failing generative call the Variant A endpoint
returns exactly the pre-generation ranked list projected to the three
per-item fields id/score/reasons, tagged "llm-fallback"; projected to
those fields it coincides item-for-item, in order, with the deterministic
points endpoint on the same request — no collaborator data enters. -/
theorem C2_fallback_determinism (i : PipeIn) (mr : ℕ) (thr : ℚ) :
    recommend_with_prefs_llm i mr thr .failure
      = { recommendations := (pipeTop i mr thr).map projFinal,
          note := some "llm-fallback" }
    ∧ (recommend_with_prefs_llm i mr thr .failure).recommendations.map
        (fun r => (r.id, r.score, r.reasons))
      = (recommend_points i mr thr).map (fun r => (r.id, r.score, r.reasons)) := by
  refine ⟨rfl, ?_⟩
  simp [recommend_with_prefs_llm, recommend_points, List.map_map]
  exact fun a ha => ⟨rfl, rfl, rfl⟩

/-- First-claim wins: a pairing is only accepted when its target is not in
the used-target set, which then grows by that target — so no accepted
pairing's target lies in the initial used set and the accepted targets are
pairwise distinct. -/
theorem bPairs_targets_fresh (lim : ℕ) (s : List (String × String × String))
    (pso : List (String × List Tgt)) :
    ∀ (entries : List (Option BItem)) (idx cnt : ℕ) (used : Finset String),
      (∀ p ∈ bPairs lim s pso entries idx cnt used, p.2.2 ∉ used)
      ∧ ((bPairs lim s pso entries idx cnt used).map
          (fun p => p.2.2)).Nodup
  | [], idx, cnt, used => by simp [bPairs]
  | none :: rest, idx, cnt, used => by
    rw [bPairs]
    split_ifs with h1
    · simp
    · exact bPairs_targets_fresh lim s pso rest (idx+1) cnt used
  | some obj :: rest, idx, cnt, used => by
    simp only [bPairs]
    by_cases h1 : lim ≤ cnt
    · rw [if_pos h1]
      simp
    · rw [if_neg h1]
      by_cases h2 : pyStrip obj.source_sku = "" ∨ pyStrip obj.target_sku = ""
      · rw [if_pos h2]
        exact bPairs_targets_fresh lim s pso rest (idx+1) cnt used
      · rw [if_neg h2]
        cases hml : metaLookup s (pyStrip obj.source_sku) with
        | none =>
          simp only [hml]
          exact bPairs_targets_fresh lim s pso rest (idx+1) cnt used
        | some m =>
          simp only [hml]
          by_cases h3 : pyStrip obj.target_sku ∉ allowedTargets pso (pyStrip obj.source_sku)
          · rw [if_pos h3]
            exact bPairs_targets_fresh lim s pso rest (idx+1) cnt used
          · rw [if_neg h3]
            by_cases h4 : pyStrip obj.target_sku ∈ used
            · rw [if_pos h4]
              exact bPairs_targets_fresh lim s pso rest (idx+1) cnt used
            · rw [if_neg h4]
              have hrec := bPairs_targets_fresh lim s pso rest (idx+1) (cnt+1)
                (insert (pyStrip obj.target_sku) used)
              constructor
              · intro p hp
                rcases List.mem_cons.mp hp with h' | h'
                · subst h'
                  exact h4
                · intro hc
                  exact hrec.1 p h' (Finset.mem_insert_of_mem hc)
              · simp only [List.map_cons, List.nodup_cons]
                refine ⟨?_, hrec.2⟩
                intro hc
                rcases List.mem_map.mp hc with ⟨p, hp, hpe⟩
                exact hrec.1 p hp (hpe ▸ Finset.mem_insert_self _ _)

/-- C7: the Variant B endpoint ignores the collaborator's fragment text —
two responses with the same (source_sku, target_sku) pairings give
identical output — and every emitted suggestion has a validated source (in
the kept source set), a target from that source's option pool, and text
synthesized by the server-side template from the source's action verb and
title, a CTA from the fixed list, and the mapped target title. -/
theorem C7_fragment_noninterference (cust : String) (i : PipeIn)
    (sp : List (String × Payload)) (mr : ℕ) (e1 e2 : List (Option BItem))
    (h : e1.map stripFrag = e2.map stripFrag) :
    build_suggestions cust i sp mr (.items e1)
      = build_suggestions cust i sp mr (.items e2)
    ∧ (∀ sug ∈ (build_suggestions cust i sp mr (.items e1)).suggestions,
        (metaLookup (bSourcesKept i sp) sug.source_sku).isSome
        ∧ sug.target_sku ∈ allowedTargets (bPso i sp) sug.source_sku
        ∧ ∃ m k, metaLookup (bSourcesKept i sp) sug.source_sku = some m
            ∧ k < CTAS.length
            ∧ sug.text = mkText (action_verb m.1) m.2 (CTAS.getD k "")
                (targetTitleMap (bPool i) sug.target_sku))
    ∧ ((build_suggestions cust i sp mr (.items e1)).suggestions.map
        (fun sug => sug.target_sku)).Nodup := by
  refine ⟨?_, ?_, ?_⟩
  · by_cases h1 : bPool i = []
    · simp [build_suggestions, h1]
    · by_cases h2 : bSources i sp = []
      · simp [build_suggestions, h1, h2]
      · by_cases h3 : bSourcesKept i sp = []
        · simp [build_suggestions, h1, h2, h3]
        · simp only [build_suggestions, if_neg h1, if_neg h2, if_neg h3]
          rw [bLoop_eq_pairs, bLoop_eq_pairs,
            bPairs_frag (bLim i mr) (bSourcesKept i sp) (bPso i sp) e1 e2 0
              (List.length []) ∅ h]
  · intro sug hsug
    by_cases h1 : bPool i = []
    · simp [build_suggestions, h1] at hsug
    · by_cases h2 : bSources i sp = []
      · simp [build_suggestions, h1, h2] at hsug
      · by_cases h3 : bSourcesKept i sp = []
        · simp [build_suggestions, h1, h2, h3] at hsug
        · simp only [build_suggestions, if_neg h1, if_neg h2, if_neg h3] at hsug
          rw [bLoop_eq_pairs] at hsug
          simp only [List.nil_append] at hsug
          rcases List.mem_map.mp hsug with ⟨p, hp, rfl⟩
          have hv := bPairs_valid (bLim i mr) (bSourcesKept i sp) (bPso i sp)
            e1 0 (List.length []) ∅ p hp
          rcases Option.isSome_iff_exists.mp hv.1 with ⟨m, hm⟩
          refine ⟨?_, ?_, m, p.1 % CTAS.length, ?_, ?_, ?_⟩
          · exact hv.1
          · exact hv.2
          · exact hm
          · exact Nat.mod_lt _ (by decide)
          · simp [renderB, hm]
  · by_cases h1 : bPool i = []
    · simp [build_suggestions, h1]
    · by_cases h2 : bSources i sp = []
      · simp [build_suggestions, h1, h2]
      · by_cases h3 : bSourcesKept i sp = []
        · simp [build_suggestions, h1, h2, h3]
        · simp only [build_suggestions, if_neg h1, if_neg h2, if_neg h3]
          rw [bLoop_eq_pairs]
          simp only [List.nil_append, List.map_map]
          have hfresh := (bPairs_targets_fresh (bLim i mr) (bSourcesKept i sp)
            (bPso i sp) e1 0 (List.length ([] : List Suggestion)) ∅).2
          simpa [Function.comp, renderB] using hfresh

theorem C7_fragment_noninterference_witness :
    build_suggestions "u" i9 sp9 MAX_RESULTS (.items ent7a)
      = build_suggestions "u" i9 sp9 MAX_RESULTS (.items ent7b) :=
  (C7_fragment_noninterference "u" i9 sp9 MAX_RESULTS ent7a ent7b (by decide)).1

/-- C8 counterexample: with `exclude_bought := false` the option pool
offered for source "C" contains the bought item "B" — the claim's
unconditional signal-list exclusion fails for the `bought` list. -/
theorem C8_pool_contains_bought :
    ("C", [(⟨"B", "Bee"⟩ : Tgt), ⟨"T", "Tee"⟩]) ∈ bPso i8 []
    ∧ "B" ∈ i8.bought ∧ i8.exclude_bought = false := by
  refine ⟨by decide, by decide, rfl⟩

/-- C8 amended: every target option pool excludes the clicked and carted
identifiers always, excludes the bought identifiers when `exclude_bought`
is set, never contains the source item itself, and never contains an empty
sku. -/
theorem C8_target_pool_exclusion (i : PipeIn) (sp : List (String × Payload))
    (src : String) (opts : List Tgt) (hmem : (src, opts) ∈ bPso i sp) :
    ∀ t ∈ opts, t.sku ∉ i.clicked ∧ t.sku ∉ i.carted
      ∧ (i.exclude_bought = true → t.sku ∉ i.bought) ∧ t.sku ≠ src ∧ t.sku ≠ "" := by
  intro t ht
  by_cases hpool : bPool i = []
  · rw [bPso, hpool, perSourceOptions_nil] at hmem
    simp at hmem
  · have h0 : (0 : ℕ) < (bPool i).length := List.length_pos.mpr hpool
    have hmain := perSourceOptions_mem (bPool i) (bOps i) (bSources i sp) 0 h0
      src opts hmem t ht
    have hpoolmem := targetPool_mem (bExclTargets i) (bCands i) ∅ t hmain.1
    have hexcl := hpoolmem.1
    simp only [bExclTargets, Finset.mem_union, List.mem_toFinset] at hexcl
    push_neg at hexcl
    refine ⟨hexcl.1.1, hexcl.1.2, ?_, hmain.2, hpoolmem.2⟩
    intro heb
    have h2 := hexcl.2
    rw [heb] at h2
    simpa using h2

theorem C8_target_pool_exclusion_witness :
    ("T1" : String) ∉ i9.clicked ∧ ("T1" : String) ≠ "C" := by
  have h := C8_target_pool_exclusion i9 sp9 "C"
    [⟨"T1", "Target One"⟩, ⟨"T2", "Target Two"⟩] (by decide)
    ⟨"T1", "Target One"⟩ (by decide)
  exact ⟨h.1, h.2.2.2.1⟩

/-- C9 counterexample: with a non-object first array element, the single
valid pairing sits at collaborator-array index 1, and the first (0-th)
emitted suggestion is rendered with CTA index 1 ("see more about"), not
with CTA index 0 as position-indexed rotation would demand. -/
theorem C9_cta_not_output_indexed :
    (build_suggestions "u" i9 sp9 MAX_RESULTS (.items ent9)).suggestions
      = [⟨mkText "viewed" "Source C" "see more about" "Target One", "C", "T1"⟩]
    ∧ mkText "viewed" "Source C" "see more about" "Target One"
      ≠ mkText "viewed" "Source C" (CTAS.getD (0 % CTAS.length) "") "Target One" := by
  exact ⟨by decide, by decide⟩

theorem lookupLast_nil {β : Type} (k : String) : lookupLast ([] : List (String × β)) k = none := rfl

theorem metaLookup_nil (src : String) : metaLookup [] src = none := rfl

theorem bPairs_nil_sources (lim : ℕ) (pso : List (String × List Tgt)) :
    ∀ (entries : List (Option BItem)) (idx cnt : ℕ) (used : Finset String),
      bPairs lim [] pso entries idx cnt used = []
  | [], idx, cnt, used => by simp [bPairs]
  | none :: rest, idx, cnt, used => by
    rw [bPairs]
    split_ifs with h1
    · rfl
    · exact bPairs_nil_sources lim pso rest (idx+1) cnt used
  | some obj :: rest, idx, cnt, used => by
    simp only [bPairs, metaLookup_nil]
    split_ifs with h1 h2
    · rfl
    · exact bPairs_nil_sources lim pso rest (idx+1) cnt used
    · exact bPairs_nil_sources lim pso rest (idx+1) cnt used

theorem bSourcesKept_nil_of_pool (i : PipeIn) (sp : List (String × Payload))
    (h : bPool i = []) : bSourcesKept i sp = [] := by
  simp [bSourcesKept, bPso, h, perSourceOptions_nil, lookupLast]

/-- C9 amended: the action verb table is clicked→"viewed",
added_to_cart→"added to cart", bought→"bought"; the validated path's
output is exactly the accepted pairings rendered through the fixed
template with the CTA chosen by the accepting entry's index in the
collaborator array (mod the CTA list length) — not by output position —
while the deterministic fallback renders its picks with the CTA indexed by
the emission counter, whose values are exactly the output positions
0,1,2,…. -/
theorem C9_cta_template_synthesis (cust : String) (i : PipeIn)
    (sp : List (String × Payload)) (mr : ℕ) (entries : List (Option BItem)) :
    (action_verb "clicked" = "viewed"
      ∧ action_verb "added_to_cart" = "added to cart"
      ∧ action_verb "bought" = "bought")
    ∧ (build_suggestions cust i sp mr (.items entries)).suggestions
        = (bPairs (bLim i mr) (bSourcesKept i sp) (bPso i sp) entries 0 0 ∅).map
            (renderB (bSourcesKept i sp) (bPool i))
    ∧ (build_suggestions cust i sp mr .failure).suggestions
        = (fbPicksOuter (bLim i mr) (bPso i sp) (bSourcesKept i sp) ∅ 0 0).map renderFb
    ∧ (fbPicksOuter (bLim i mr) (bPso i sp) (bSourcesKept i sp) ∅ 0 0).map FbPick.idx
        = List.range' 0
            (fbPicksOuter (bLim i mr) (bPso i sp) (bSourcesKept i sp) ∅ 0 0).length := by
  refine ⟨⟨by decide, by decide, by decide⟩, ?_, ?_, fbPicksOuter_idx _ _ _ _ _ _⟩
  · by_cases h1 : bPool i = []
    · have hk := bSourcesKept_nil_of_pool i sp h1
      simp [build_suggestions, h1, hk, bPairs_nil_sources]
    · by_cases h2 : bSources i sp = []
      · have hk : bSourcesKept i sp = [] := by simp [bSourcesKept, h2]
        simp [build_suggestions, h1, h2, hk, bPairs_nil_sources]
      · by_cases h3 : bSourcesKept i sp = []
        · simp [build_suggestions, h1, h2, h3, bPairs_nil_sources]
        · simp only [build_suggestions, if_neg h1, if_neg h2, if_neg h3]
          rw [bLoop_eq_pairs]
          simp
  · by_cases h1 : bPool i = []
    · have hk := bSourcesKept_nil_of_pool i sp h1
      simp [build_suggestions, h1, hk, fbPicksOuter]
    · by_cases h2 : bSources i sp = []
      · have hk : bSourcesKept i sp = [] := by simp [bSourcesKept, h2]
        simp [build_suggestions, h1, h2, hk, fbPicksOuter]
      · by_cases h3 : bSourcesKept i sp = []
        · simp [build_suggestions, h1, h2, h3, fbPicksOuter]
        · simp only [build_suggestions, if_neg h1, if_neg h2, if_neg h3]
          rw [bFbOuter_eq]
          simp

end RecPoc
